import Mathlib

/-!
# Verification of the pymfit model-configuration subsystem

A shallow embedding, in Lean 4, of the configuration serialization /
deserialization core of the pymfit repository (`pymfit/model.py`,
`pymfit/core.py`, `pymfit/multicomponent.py`, `pymfit/pymfitter.py`),
together with theorems settling the specification claims about it.

Embedding conventions:
* Python floats are modelled as rationals (`ℚ`); all comparisons in the
  source are order comparisons that `ℚ` models exactly.
* Heterogeneous Python values (numbers, strings, `None`, lists) are
  modelled by the inductive type `PyV`.
* A Python function that can raise (`assert`, `KeyError`, `IndexError`,
  destructuring failure, `UnboundLocalError`) is modelled as returning
  `Option`; `none` models the raised exception.  A rejected mutation
  therefore leaves no partially-updated state behind, matching Python
  property setters that assert before assigning.
* Text lines are modelled as `List Char`, kept with their trailing
  newline exactly as produced by `readlines()`; `str.split()` is
  modelled by `pySplit`.
* Python dictionaries are modelled as association lists in insertion
  order; assignment to an existing key replaces the value in place
  (`dictSet`), matching `dict` semantics.
-/

namespace Pymfit

attribute [local semireducible] Rat.add Rat.sub Rat.mul Rat.inv Rat.ofScientific

/-- A scalar Python value as it appears inside pymfit parameter
specifications: `None`, a number, or a string. -/
inductive PyS where
  | none : PyS
  | num (q : ℚ) : PyS
  | str (s : String) : PyS
deriving DecidableEq, Repr

/-- A Python value as it appears in pymfit parameter dictionaries: a
scalar or a flat list of scalars (the value universe of the pymfit
data model; limit specs are scalars or lists such as `[v, lo, hi]` and
`[v, 'fixed']`). -/
inductive PyV where
  | none : PyV
  | num (q : ℚ) : PyV
  | str (s : String) : PyV
  | list (l : List PyS) : PyV
deriving DecidableEq, Repr

/-- Injection of a scalar into `PyV`. -/
def PyS.toV : PyS → PyV
  | .none => .none
  | .num q => .num q
  | .str s => .str s

/-- Whether a Python value is a list (`isinstance(v, list)`). -/
def PyV.isList : PyV → Bool
  | .list _ => true
  | _ => false

/-- Python dictionary assignment `d[k] = v` on an insertion-ordered
association list: replaces in place if the key exists, else appends. -/
def dictSet {K V : Type} [DecidableEq K] : List (K × V) → K → V → List (K × V)
  | [], k, v => [(k, v)]
  | (k', v') :: rest, k, v =>
      if k' = k then (k, v) :: rest else (k', v') :: dictSet rest k v

/-- Python dictionary lookup `d[k]`; `none` models `KeyError`. -/
def dictGet {K V : Type} [DecidableEq K] (d : List (K × V)) (k : K) : Option V :=
  (d.find? (fun p => p.1 = k)).map Prod.snd

/-!
## `model.py`: the `Param` class

`Param` stores `name`, `_value`, `_vmin`, `_vmax`, `_fixed`,
`relative_limits`.  The property setters assert their invariant before
assigning; a failed assertion is modelled as `none`.
-/

/-- The state of a `model.Param` object (`model.py`, lines 166-238). -/
structure Param where
  name : String
  value : ℚ
  vmin : Option ℚ
  vmax : Option ℚ
  fixed : Bool
  relative_limits : Bool
deriving DecidableEq, Repr

/-- The `value` property setter: when both bounds are set it asserts
`vmin <= val <= vmax` before storing (`model.py`, lines 189-193). -/
def Param.setValue (p : Param) (val : ℚ) : Option Param :=
  match p.vmin, p.vmax with
  | some lo, some hi =>
      if lo ≤ val ∧ val ≤ hi then some { p with value := val } else none
  | _, _ => some { p with value := val }

/-- The `vmin` property setter: asserts `val <= value` (`model.py`,
lines 199-202). -/
def Param.setVmin (p : Param) (val : ℚ) : Option Param :=
  if val ≤ p.value then some { p with vmin := some val } else none

/-- The `vmax` property setter: asserts `val >= value` (`model.py`,
lines 208-211). -/
def Param.setVmax (p : Param) (val : ℚ) : Option Param :=
  if p.value ≤ val then some { p with vmax := some val } else none

/-- The `fixed` property setter: stores the flag and, when it is set to
a truthy value, clears both bounds (`model.py`, lines 217-222). -/
def Param.setFixed (p : Param) (val : Bool) : Param :=
  if val then { p with fixed := val, vmin := Option.none, vmax := Option.none }
  else { p with fixed := val }

/-- Python numeric truthiness of an optional number: `None` and `0` are
falsy (used by `if relative_limits and vmin and vmax`). -/
def optTruthy : Option ℚ → Bool
  | Option.none => false
  | some q => q ≠ 0

/-- `Param.__init__` (`model.py`, lines 168-183): stores the flags, runs
the `value` setter (no bounds set yet, so it always accepts), then sets
the bounds through the checked setters.  With `relative_limits` and
truthy bound arguments the bounds are offsets from the value. -/
def Param.init (name : String) (value : ℚ) (vmin vmax : Option ℚ)
    (fixed : Bool := false) (relative_limits : Bool := false) : Option Param :=
  let p0 : Param := ⟨name, value, Option.none, Option.none, fixed, relative_limits⟩
  (p0.setValue value).bind fun p =>
    match vmin, vmax with
    | some a, some b =>
        if relative_limits ∧ optTruthy (some a) ∧ optTruthy (some b) then
          (p.setVmin (value - a)).bind fun p1 => p1.setVmax (value + b)
        else
          (p.setVmin a).bind fun p1 => p1.setVmax b
    | _, _ => some p

/-- `Param.set_lim` (`model.py`, lines 233-238): clears `fixed`,
converts relative limits, then runs the `vmin` and `vmax` setters. -/
def Param.set_lim (p : Param) (lim : ℚ × ℚ) : Option Param :=
  let p1 := p.setFixed false
  let a := if p1.relative_limits then p1.value - lim.1 else lim.1
  let b := if p1.relative_limits then p1.value + lim.2 else lim.2
  (p1.setVmin a).bind fun p2 => p2.setVmax b

/-- A `Param` whose two bounds are set and bracket its value. -/
def Param.boundedInv (p : Param) : Prop :=
  ∃ lo hi, p.vmin = some lo ∧ p.vmax = some hi ∧ lo ≤ p.value ∧ p.value ≤ hi

/-!
## `model.py`: `_parse_limits` and the `Model` center expansion
-/

/-- `_parse_limits` (`model.py`, lines 148-163).  A 3-list destructures
to `(val, vmin, vmax, False)`; a 2-list to `(lims[0], None, None,
True)`; a non-list to `(lims, None, None, False)`.  A list of any other
length leaves the variables unassigned, so the `return` raises
(`UnboundLocalError`), modelled as `none`. -/
def parseLimits : PyV → Option (PyV × PyV × PyV × Bool)
  | .list [val, vmin, vmax] => some (val.toV, vmin.toV, vmax.toV, false)
  | .list [val, _] => some (val.toV, .none, .none, true)
  | .list _ => Option.none
  | v => some (v, .none, .none, false)

/-- The `dcent` argument of `Model.__init__`: a number or the string
sentinel `'fixed'`. -/
inductive DCent where
  | num (q : ℚ) : DCent
  | strFixed : DCent
deriving DecidableEq, Repr

/-- The per-axis center expansion inside `Model.__init__` (`model.py`,
lines 294-301): when `dcent` differs from `'fixed'` and `0`, the axis
becomes `[pos, pos-dcent if pos-dcent > 0 else 1, pos+dcent]`;
otherwise it becomes `[pos, 'fixed']`. -/
def expandAxis (pos : ℚ) (d : DCent) : PyV :=
  match d with
  | .num q =>
      if q ≠ 0 then
        .list [.num pos, .num (if pos - q > 0 then pos - q else 1), .num (pos + q)]
      else .list [.num pos, .str "fixed"]
  | .strFixed => .list [.num pos, .str "fixed"]

/-!
## `model.py`: default parameter tables and registry
-/

/-- `DEFAULT_SERSIC` (`model.py`, lines 15-21). -/
def DEFAULT_SERSIC : List (String × PyV) :=
  [("PA", .list [.num 20, .num 0, .num 360]),
   ("ell", .list [.num (mkRat 2 10), .num 0, .num (mkRat 99 100)]),
   ("n", .list [.num 1, .num (mkRat 1 100), .num 5]),
   ("I_e", .list [.num (mkRat 5 100), .num 0, .num 1000]),
   ("r_e", .list [.num 20, .num 0, .num 5000])]

/-- `DEFAULT_SERSIC_GENELLIPSE` (`model.py`, lines 23-30). -/
def DEFAULT_SERSIC_GENELLIPSE : List (String × PyV) :=
  [("PA", .list [.num 20, .num 0, .num 360]),
   ("ell", .list [.num (mkRat 2 10), .num 0, .num (mkRat 99 100)]),
   ("c0", .list [.num 0, .num (mkRat (-2) 10), .num (mkRat 2 10)]),
   ("n", .list [.num 1, .num (mkRat 1 100), .num 5]),
   ("I_e", .list [.num (mkRat 5 100), .num 0, .num 1000]),
   ("r_e", .list [.num 20, .num 0, .num 5000])]

/-- `DEFAULT_EXP` (`model.py`, lines 32-37). -/
def DEFAULT_EXP : List (String × PyV) :=
  [("PA", .list [.num 20, .num 0, .num 360]),
   ("ell", .list [.num (mkRat 2 10), .num 0, .num (mkRat 99 100)]),
   ("I_0", .list [.num (mkRat 5 100), .num 0, .num 1000]),
   ("h", .list [.num 20, .num 0, .num 5000])]

/-- `DEFAULT_BROKENEXP` (`model.py`, lines 39-47). -/
def DEFAULT_BROKENEXP : List (String × PyV) :=
  [("PA", .list [.num 20, .num 0, .num 360]),
   ("ell", .list [.num (mkRat 2 10), .num 0, .num (mkRat 99 100)]),
   ("I_0", .list [.num (mkRat 5 100), .num 0, .num 1000]),
   ("h1", .list [.num 4, .num 0, .num 5000]),
   ("h2", .list [.num 8, .num 0, .num 5000]),
   ("r_break", .list [.num 20, .num 0, .num 5000]),
   ("alpha", .list [.num 1, .num (mkRat 1 2), .num 5])]

/-- `DEFAULT_EDGEDISK` (`model.py`, lines 49-55). -/
def DEFAULT_EDGEDISK : List (String × PyV) :=
  [("PA", .list [.num 20, .num 0, .num 360]),
   ("L_0", .list [.num (mkRat 5 100), .num 0, .num 1000]),
   ("h", .list [.num 20, .num 0, .num 5000]),
   ("n", .list [.num 2, .num 1, .num 100]),
   ("z_0", .list [.num 2, .num 1, .num 100])]

/-- `DEFAULT_GAUSS` (`model.py`, lines 57-62). -/
def DEFAULT_GAUSS : List (String × PyV) :=
  [("PA", .list [.num 20, .num 0, .num 360]),
   ("ell", .list [.num (mkRat 2 10), .num 0, .num (mkRat 99 100)]),
   ("I_0", .list [.num 1, .num (mkRat 1 100), .num 5]),
   ("sigma", .list [.num (mkRat 1 10), .num (mkRat 1 100), .num 1])]

/-- `DEFAULT_RING` (`model.py`, lines 64-70). -/
def DEFAULT_RING : List (String × PyV) :=
  [("PA", .list [.num 20, .num 0, .num 360]),
   ("ell", .list [.num (mkRat 2 10), .num 0, .num (mkRat 99 100)]),
   ("A", .list [.num 1, .num (mkRat 1 100), .num 5]),
   ("R_ring", .list [.num 2, .num (mkRat 1 10), .num 10]),
   ("sigma_r", .list [.num 1, .num (mkRat 2 10), .num 5])]

/-- `DEFAULT_FLATSKY` (`model.py`, lines 72-74). -/
def DEFAULT_FLATSKY : List (String × PyV) :=
  [("I_sky", .list [.num 0, .num (mkRat (-5) 1), .num 5])]

/-- `DEFAULT_MOFFAT` (`model.py`, lines 76-82). -/
def DEFAULT_MOFFAT : List (String × PyV) :=
  [("PA", .list [.num 20, .num 0, .num 360]),
   ("ell", .list [.num (mkRat 2 10), .num 0, .num (mkRat 99 100)]),
   ("I_0", .list [.num 1, .num (mkRat 1 100), .num 5]),
   ("fwhm", .list [.num (mkRat 2 10), .num (mkRat 1 100), .num 10]),
   ("beta", .list [.num 2, .num (mkRat 1 10), .num 5])]

/-- `DEFAULT_MODIFIEDKING` (`model.py`, lines 84-91). -/
def DEFAULT_MODIFIEDKING : List (String × PyV) :=
  [("PA", .list [.num 20, .num 0, .num 360]),
   ("ell", .list [.num (mkRat 2 10), .num 0, .num (mkRat 99 100)]),
   ("I_0", .list [.num 1, .num (mkRat 1 100), .num 5]),
   ("r_c", .list [.num (mkRat 2 10), .num (mkRat 1 100), .num 10]),
   ("r_t", .list [.num 2, .num (mkRat 1 10), .num 20]),
   ("alpha", .list [.num 2, .num 1, .num 5])]

/-- `DEFAULT_POINTSOURCE` (`model.py`, lines 93-95). -/
def DEFAULT_POINTSOURCE : List (String × PyV) :=
  [("I_tot", .list [.num 1, .num (mkRat 1 100), .num 5])]

/-- The `param_names` registry (`model.py`, lines 97-134): each
functional form's fixed ordered parameter-name list; `none` models the
`KeyError` for an unknown form. -/
def paramNamesReg : String → Option (List String)
  | "Sersic" => some ["PA", "ell", "n", "I_e", "r_e"]
  | "Sersic_GenEllipse" => some ["PA", "ell", "c0", "n", "I_e", "r_e"]
  | "Gaussian" => some ["PA", "ell", "I_0", "sigma"]
  | "GaussianRing" => some ["PA", "ell", "A", "R_ring", "sigma_r"]
  | "FlatSky" => some ["I_sky"]
  | "Exponential" => some ["PA", "ell", "I_0", "h"]
  | "EdgeOnDisk" => some ["PA", "L_0", "h", "n", "z_0"]
  | "BrokenExponential" => some ["PA", "ell", "I_0", "h1", "h2", "r_break", "alpha"]
  | "Moffat" => some ["PA", "ell", "I_0", "fwhm", "beta"]
  | "ModifiedKing" => some ["PA", "ell", "I_0", "r_c", "r_t", "alpha"]
  | "PointSource" => some ["I_tot"]
  | _ => Option.none

/-- The `default_params` registry (`model.py`, lines 110-120). -/
def defaultParamsReg : String → Option (List (String × PyV))
  | "Sersic" => some DEFAULT_SERSIC
  | "Sersic_GenEllipse" => some DEFAULT_SERSIC_GENELLIPSE
  | "Gaussian" => some DEFAULT_GAUSS
  | "GaussianRing" => some DEFAULT_RING
  | "FlatSky" => some DEFAULT_FLATSKY
  | "Exponential" => some DEFAULT_EXP
  | "BrokenExponential" => some DEFAULT_BROKENEXP
  | "EdgeOnDisk" => some DEFAULT_EDGEDISK
  | "Moffat" => some DEFAULT_MOFFAT
  | "ModifiedKing" => some DEFAULT_MODIFIEDKING
  | "PointSource" => some DEFAULT_POINTSOURCE
  | _ => Option.none

/-!
## `model.py`: `ModelComponent` and `Model`
-/

/-- Sequential `Option`-valued map, modelling a Python loop that builds
a list and propagates the first raised exception. -/
def mapO {α β : Type} (f : α → Option β) : List α → Option (List β)
  | [] => some []
  | a :: l => (f a).bind fun b => (mapO f l).bind fun r => some (b :: r)

/-- The loop of `_check_kwargs_defaults` (`model.py`, lines 137-145):
`kw` starts as a copy of the defaults; a list-valued override is taken
when its first element is not `None` (an empty list raises, `none`); a
non-list override is taken when it is not `None`. -/
def checkKwargsLoop (kw : List (String × PyV)) :
    List (String × PyV) → Option (List (String × PyV))
  | [] => some kw
  | (k, v) :: rest =>
      match v with
      | .list [] => Option.none
      | .list (e :: t) =>
          if e ≠ PyS.none then checkKwargsLoop (dictSet kw k (.list (e :: t))) rest
          else checkKwargsLoop kw rest
      | .none => checkKwargsLoop kw rest
      | v' => checkKwargsLoop (dictSet kw k v') rest

/-- `_check_kwargs_defaults(kwargs, defaults)` (`model.py`). -/
def checkKwargsDefaults (kwargs defaults : List (String × PyV)) :
    Option (List (String × PyV)) :=
  checkKwargsLoop defaults kwargs

/-- Coerce a destructured spec component to a number; pymfit parameter
values are floats (data model), so a non-numeric value slot is
modelled as a failure. -/
def pyNum : PyV → Option ℚ
  | .num q => some q
  | _ => Option.none

/-- Coerce a destructured bound to an optional number (`None` means the
bound is absent). -/
def pyOptNum : PyV → Option (Option ℚ)
  | .none => some Option.none
  | .num q => some (some q)
  | _ => Option.none

/-- Build a `Param` from the output of `_parse_limits`, as done by
`ModelComponent.__init__` and `set_param`: `Param(k, val, vmin, vmax,
fixed, **kwargs)`. -/
def mkParam (name : String) (val vmin vmax : PyV) (fixed : Bool)
    (rel : Bool := false) : Option Param := do
  let q ← pyNum val
  let lo ← pyOptNum vmin
  let hi ← pyOptNum vmax
  Param.init name q lo hi fixed rel

/-- The `init_pars` computation of `ModelComponent.__init__`
(`model.py`, lines 247-250): a truthy (non-empty) `params` dict is
merged over the defaults, otherwise the defaults are used as is. -/
def initPars (params dflt : List (String × PyV)) : Option (List (String × PyV)) :=
  if params ≠ [] then checkKwargsDefaults params dflt else some dflt

/-- The state of a `ModelComponent` (`model.py`, lines 241-274):
functional-form name, the form's ordered `param_names`, the stored
parameter attributes in insertion order, and the optional center
parameters `X0`/`Y0`. -/
structure MComp where
  name : String
  param_names : List String
  param_dict : List (String × PyV)
  params : List (String × Param)
  X0 : Option Param
  Y0 : Option Param
deriving DecidableEq, Repr

/-- `ModelComponent.__init__` (`model.py`, lines 243-267): looks up the
form in the registries (`KeyError` for an unknown form), merges
caller-supplied parameters over the defaults (an empty `params` dict is
falsy in Python, keeping the defaults untouched), destructures every
spec via `_parse_limits` into a `Param`, and builds `X0`/`Y0` from the
center pair when one is supplied. -/
def MComp.init (name : String) (params : List (String × PyV))
    (center : Option (PyV × PyV)) (rel : Bool := false) : Option MComp := do
  let pn ← paramNamesReg name
  let dflt ← defaultParamsReg name
  let init_pars ← initPars params dflt
  let plist ← mapO (fun kv => do
      let (v, lo, hi, fx) ← parseLimits kv.2
      let p ← mkParam kv.1 v lo hi fx rel
      pure (kv.1, p)) init_pars
  match center with
  | some (cx, cy) => do
      let (v, lo, hi, fx) ← parseLimits cx
      let px ← mkParam "X0" v lo hi fx rel
      let (v2, lo2, hi2, fx2) ← parseLimits cy
      let py ← mkParam "Y0" v2 lo2 hi2 fx2 rel
      pure ⟨name, pn, init_pars, plist, some px, some py⟩
  | Option.none => pure ⟨name, pn, init_pars, plist, Option.none, Option.none⟩

/-- The state of a `Model` (`model.py`, lines 277-303): `funcs`,
`ncomp = len(funcs)`, and the components `comp_1 … comp_N` in order.
(`ncomp` is the length of `funcs` even when the zipped construction
produced fewer components.) -/
structure Model where
  funcs : List String
  ncomp : ℕ
  comps : List MComp
deriving DecidableEq, Repr

/-- `Model.__init__` (`model.py`, lines 279-303), after the
single-vs-list normalization of the arguments: zips `funcs`, `params`
and `centers` (truncating to the shortest, as `zip` does), expands each
given center per-axis via `expandAxis`, and builds one component per
triple. -/
def Model.init (funcs : List String) (params : List (List (String × PyV)))
    (centers : List (Option (ℚ × ℚ))) (dcent : DCent := .num 30)
    (rel : Bool := false) : Option Model := do
  let comps ← mapO (fun fpc =>
      match fpc with
      | (func, pars, some (cx, cy)) =>
          MComp.init func pars (some (expandAxis cx dcent, expandAxis cy dcent)) rel
      | (func, pars, Option.none) => MComp.init func pars Option.none rel)
    (funcs.zip (params.zip centers))
  pure ⟨funcs, funcs.length, comps⟩

/-!
## `core.py` / `pymfitter.py`: config serialization

Emitted config text is modelled as a list of structured lines: each
`print` call in the source emits one `WLine` (`print('\n' + ...)`
emits a blank line followed by a parameter line).  Numeric rendering
(`str(x)`) is kept symbolic: a parameter line carries its name, value
and limit part.
-/

/-- The limit part of an emitted parameter line: empty, a raw value
(printed as is, e.g. `fixed`), or a `lo,hi` pair. -/
inductive WLimit where
  | empty : WLimit
  | raw (v : PyS) : WLimit
  | range (lo hi : PyS) : WLimit
deriving DecidableEq, Repr

/-- One emitted config line: a parameter line `name value limit`, a
`FUNCTION <name>` marker line, or a blank line. -/
inductive WLine where
  | pline (name : String) (val : PyV) (limit : WLimit) : WLine
  | funcLine (fname : String) : WLine
  | blank : WLine
deriving DecidableEq, Repr

/-- Whether an emitted line is a `FUNCTION` marker line. -/
def WLine.isFunc : WLine → Bool
  | .funcLine _ => true
  | _ => false

/-- Number of `FUNCTION` marker lines in emitted text. -/
def countFunc (ls : List WLine) : ℕ := ls.countP WLine.isFunc

/-- `SERSIC_PARAMS` (`core.py`, line 17): the fixed emission order of
`write_component`. -/
def SERSIC_PARAMS : List String := ["X0", "Y0", "PA", "ell", "n", "I_e", "r_e"]

/-- The lines emitted for one parameter by `write_component`: the
parameter line itself and, when the parameter just written is `Y0`, an
immediately following `FUNCTION <function>` line (`core.py`, lines
243-245). -/
def emitP (function p : String) (val : PyV) (lim : WLimit) (rest : List WLine) : List WLine :=
  WLine.pline p val lim :: (if p = "Y0" then WLine.funcLine function :: rest else rest)

/-- The parameter loop of `write_component` (`core.py`, lines 226-245):
for each name in `SERSIC_PARAMS` order, look the value up in the dict
(`KeyError` if absent), skip `None` values, destructure list values of
length 1/2/3 into value and limit (any other length deletes the partial
file and raises), print the line, and print the `FUNCTION` marker right
after the `Y0` line. -/
def writeCompLoop (function : String) (d : List (String × PyV)) :
    List String → Option (List WLine)
  | [] => some []
  | p :: ps =>
      (dictGet d p).bind fun val =>
        match val with
        | PyV.none => writeCompLoop function d ps
        | PyV.list [v] =>
            (writeCompLoop function d ps).map (emitP function p v.toV .empty)
        | PyV.list [v, lim] =>
            (writeCompLoop function d ps).map (emitP function p v.toV (.raw lim))
        | PyV.list [v, lo, hi] =>
            (writeCompLoop function d ps).map (emitP function p v.toV (.range lo hi))
        | PyV.list _ => Option.none
        | v => (writeCompLoop function d ps).map (emitP function p v .empty)

/-- `write_component(fileobj, function, param_dict)` (`core.py`, lines
204-247). -/
def write_component (function : String) (d : List (String × PyV)) : Option (List WLine) :=
  writeCompLoop function d SERSIC_PARAMS

/-- `write_config(fn, param_dict)` (`core.py`, lines 179-201): writes a
single Sersic component. -/
def write_config (d : List (String × PyV)) : Option (List WLine) :=
  write_component "Sersic" d

/-- `Param.config_line` (`model.py`, lines 224-231): `name value`
followed by `fixed` when fixed, else `vmin,vmax` when both bounds are
set, else nothing. -/
def Param.config_line (p : Param) : WLine :=
  if p.fixed then .pline p.name (.num p.value) (.raw (.str "fixed"))
  else
    match p.vmin, p.vmax with
    | some lo, some hi => .pline p.name (.num p.value) (.range (.num lo) (.num hi))
    | _, _ => .pline p.name (.num p.value) .empty

/-- The per-component block of `PymFitter.write_config`
(`pymfitter.py`, lines 31-39): when `comp.X0` is present, a blank line,
the `X0` line and the `Y0` line (`None` for `Y0` would be an
`AttributeError`); then the `FUNCTION` marker; then one config line per
name in `param_names` order (a missing attribute is an error). -/
def pymHead (c : MComp) : Option (List WLine) :=
  match c.X0 with
  | some px =>
      match c.Y0 with
      | some py => some [WLine.blank, px.config_line, py.config_line]
      | Option.none => Option.none
  | Option.none => some []

/-- `PymFitter.write_config`, one component block: the center lines
(when present), the `FUNCTION` marker, then the parameter lines. -/
def pymWriteComp (c : MComp) : Option (List WLine) := do
  let head ← pymHead c
  let plines ← mapO (fun par => (dictGet c.params par).map Param.config_line) c.param_names
  pure (head ++ WLine.funcLine c.name :: plines)

/-- `PymFitter.write_config` (`pymfitter.py`, lines 29-39): one block
per `comp_1 .. comp_ncomp` (a missing attribute is an error). -/
def pymWriteConfig (m : Model) : Option (List WLine) := do
  let blocks ← mapO (fun i =>
      match m.comps[i]? with
      | some c => pymWriteComp c
      | Option.none => Option.none) (List.range m.ncomp)
  pure blocks.flatten

/-!
## `multicomponent.py`: the build-time config tree and its serializer
-/

/-- The state of a `ModelContainer` (`multicomponent.py`, lines
111-129): object number, the `position` dict entries for `X0` and `Y0`
(each a value list), and the ordered `(funcname, params)` component
nests with contiguous int keys. -/
structure MObj where
  object_number : ℕ
  posX : List PyS
  posY : List PyS
  comps : List (String × List (String × PyV))
deriving DecidableEq, Repr

/-- The state of a `MultiComponentModel` (`multicomponent.py`, lines
14-23): the object containers of `config_tree` in key order. -/
structure MCModel where
  objs : List MObj
deriving DecidableEq, Repr

/-- The component loop of `write_multicomponentconfig` (`core.py`,
lines 168-173): for each nest in key order, print the `FUNCTION` line,
null out the component's `X0` and `Y0` dict entries (an in-place
mutation of the tree, returned as the updated nest list), and emit the
component via `write_component`. -/
def writeObjComps : List (String × List (String × PyV)) →
    Option (List WLine × List (String × List (String × PyV)))
  | [] => some ([], [])
  | (fn, d) :: rest => do
      let d' := dictSet (dictSet d "X0" PyV.none) "Y0" PyV.none
      let ls ← write_component fn d'
      let (ls2, rest') ← writeObjComps rest
      pure (WLine.funcLine fn :: ls ++ ls2, (fn, d') :: rest')

/-- The per-object part of `write_multicomponentconfig` (`core.py`,
lines 163-174): the `X0` and `Y0` position lines (the position entries
must destructure as `val, lo, hi`), the component blocks, then
`print('\n')`, which emits two blank lines. -/
def posLine (key : String) (pos : List PyS) : Option WLine :=
  match pos with
  | [v, lo, hi] => some (WLine.pline key v.toV (.range lo hi))
  | _ => Option.none

/-- The per-object part of `write_multicomponentconfig` continued:
position lines, component blocks, then `print('\n')` (two blank
lines). -/
def writeObj (o : MObj) : Option (List WLine × MObj) := do
  let xline ← posLine "X0" o.posX
  let yline ← posLine "Y0" o.posY
  let (cls, comps') ← writeObjComps o.comps
  pure (xline :: yline :: cls ++ [WLine.blank, WLine.blank], { o with comps := comps' })

/-- The object loop of `write_multicomponentconfig`. -/
def writeMCCLoop : List MObj → Option (List WLine × List MObj)
  | [] => some ([], [])
  | o :: rest => do
      let (ls, o') ← writeObj o
      let (ls2, rest') ← writeMCCLoop rest
      pure (ls ++ ls2, o' :: rest')

/-- `write_multicomponentconfig(fn, mcmodel)` (`core.py`, lines
155-176), returning both the emitted lines and the tree as it stands
after the write (the source mutates the component dicts in place). -/
def write_multicomponentconfig (m : MCModel) : Option (List WLine × MCModel) :=
  (writeMCCLoop m.objs).map (fun r => (r.1, ⟨r.2⟩))

/-!
## `multicomponent.py`: result containers

The result tree is value-polymorphic (`V` is the type of recovered
values: the floats of `__parse_line`).  `ncomponents` is always the
number of stored component nests (the Python counter and the dict are
only ever mutated together), so the nests are modelled as a list whose
length is the counter, with `0 <= index < length` exactly the keys of
the `component_nests` dict.
-/

/-- Update the element at an index, failing when the index is absent or
the update itself fails (models indexing an int-keyed Python dict with
contiguous keys `0 .. len-1`, where a missing key is a `KeyError`). -/
def listModifyO {α : Type} (f : α → Option α) : List α → ℕ → Option (List α)
  | [], _ => Option.none
  | a :: t, 0 => (f a).map (· :: t)
  | a :: t, n + 1 => (listModifyO f t n).map (a :: ·)

/-- One component nest of a `ResultContainer`: the pair
`(funcname, params)` stored in `component_nests`. -/
structure RComp (V : Type) where
  funcname : String
  params : List (String × V)
deriving DecidableEq, Repr

/-- The state of a `ResultContainer` (`multicomponent.py`, lines
131-160).  NOTE (faithful to the source): `__init__` assigns
`self.X0_err = X0` and `self.Y0_err = Y0`, discarding the error
arguments. -/
structure RObj (V : Type) where
  object_number : ℕ
  X0 : V
  X0_err : V
  Y0 : V
  Y0_err : V
  comps : List (RComp V)
deriving DecidableEq, Repr

/-- `ResultContainer.__init__` (`multicomponent.py`, lines 135-142),
including the assignments `self.X0_err = X0` and `self.Y0_err = Y0` as
written in the source. -/
def RObj.init {V : Type} (object_number : ℕ) (X0 X0_err Y0 Y0_err : V) : RObj V :=
  ⟨object_number, X0, X0, Y0, Y0, []⟩

/-- `ResultContainer.add_function` (`multicomponent.py`, lines 147-153):
appends a nest at key `ncomponents` seeded with the object's stored
X0/Y0 values and errors, then increments the counter. -/
def RObj.add_function {V : Type} (o : RObj V) (funcname : String) : RObj V :=
  { o with comps := o.comps ++
      [⟨funcname, [("X0", o.X0), ("X0_err", o.X0_err), ("Y0", o.Y0), ("Y0_err", o.Y0_err)]⟩] }

/-- `ResultContainer.add_parameter` (`multicomponent.py`, lines
155-160): when `component_number` is `None` it defaults to
`self.ncomponents`, then `component_nests[component_number]` is indexed
(a `KeyError`, hence `none`, when that key does not exist) and the
`(name, value)` and `(name + '_err', error)` entries are assigned into
that nest's parameter dict. -/
def RObj.add_parameter {V : Type} (o : RObj V) (name : String) (param param_err : V)
    (component_number : Option ℤ) : Option (RObj V) :=
  let cnum : ℤ :=
    match component_number with
    | Option.none => (o.comps.length : ℤ)
    | some i => i
  if 0 ≤ cnum then
    (listModifyO (fun c =>
        some { c with params := dictSet (dictSet c.params name param) (name ++ "_err") param_err })
      o.comps cnum.toNat).map (fun l => { o with comps := l })
  else Option.none

/-- The state of a `MultiComponentResults` tree (`multicomponent.py`,
lines 69-93): the recovered reduced chi-square (if any) and the objects
of `config_tree`, whose int keys `0 .. nobjects-1` are the list
positions. -/
structure MCRes (V : Type) where
  reduced_chisq : Option V
  objs : List (RObj V)
deriving DecidableEq, Repr

/-- A fresh `MultiComponentResults()`. -/
def MCRes.empty (V : Type) : MCRes V := ⟨Option.none, []⟩

/-- `MultiComponentResults.add_object` (`multicomponent.py`, lines
75-78): stores a new `ResultContainer` at key `nobjects` and increments
the count. -/
def MCRes.add_object {V : Type} (m : MCRes V) (x0 x0_err y0 y0_err : V) : MCRes V :=
  { m with objs := m.objs ++ [RObj.init m.objs.length x0 x0_err y0 y0_err] }

/-- `MultiComponentResults.add_function` (`multicomponent.py`, lines
80-81): `config_tree[objnumber].add_function(funcname)`; a missing
object key is a `KeyError`. -/
def MCRes.add_function {V : Type} (m : MCRes V) (objnumber : ℤ) (funcname : String) :
    Option (MCRes V) :=
  if 0 ≤ objnumber then
    (listModifyO (fun o => some (o.add_function funcname)) m.objs objnumber.toNat).map
      (fun l => { m with objs := l })
  else Option.none

/-- `MultiComponentResults.add_parameter` (`multicomponent.py`, lines
83-84): delegates to the object's `add_parameter` with the given
component number. -/
def MCRes.add_parameter {V : Type} (m : MCRes V) (objnumber : ℤ)
    (component_number : Option ℤ) (name : String) (param param_err : V) :
    Option (MCRes V) :=
  if 0 ≤ objnumber then
    (listModifyO (fun o => o.add_parameter name param param_err component_number)
      m.objs objnumber.toNat).map (fun l => { m with objs := l })
  else Option.none

/-!
## Result-text lines

Result-file text is modelled as `readlines()` output: a list of lines,
each a `List Char` that keeps its trailing newline.  `str.split()` is
modelled by `pySplit` (split on whitespace runs, no empty words).
-/

/-- Whitespace characters relevant to result files. -/
def isWS (c : Char) : Bool := c = ' ' || c = '\t' || c = '\n'

/-- Accumulator worker for `pySplit` (structurally recursive). -/
def pySplitAux : List Char → List Char → List (List Char)
  | [], acc => if acc = [] then [] else [acc.reverse]
  | c :: rest, acc =>
      if isWS c then
        if acc = [] then pySplitAux rest [] else acc.reverse :: pySplitAux rest []
      else pySplitAux rest (c :: acc)

/-- Python `str.split()` with no argument: split on runs of whitespace,
dropping empty words. -/
def pySplit (l : List Char) : List (List Char) := pySplitAux l []

/-- Python `'X0' in line`: substring containment. -/
def listContains (needle : List Char) : List Char → Bool
  | [] => needle.isEmpty
  | c :: rest => needle.isPrefixOf (c :: rest) || listContains needle rest

/-- The suffix after the first occurrence of `pat`; `none` when `pat`
does not occur (models the position after a regex lookbehind match). -/
def afterFirst (pat : List Char) : List Char → Option (List Char)
  | [] => if pat.isEmpty then some [] else Option.none
  | c :: rest =>
      if pat.isPrefixOf (c :: rest) then some ((c :: rest).drop pat.length)
      else afterFirst pat rest

/-- `re.findall("(?<=FUNCTION ).*", line)[0]`: everything after the
first `"FUNCTION "` up to (excluding) a newline; `none` models the
`IndexError` when there is no match. -/
def funcNameOf (l : List Char) : Option (List Char) :=
  (afterFirst ("FUNCTION ".toList) l).map (List.takeWhile (fun c => c ≠ '\n'))

/-- `__parse_line` (`core.py`, lines 291-298): exactly 5
whitespace-separated tokens, returning `(name, value, error)` where the
value is token 2 and the error the last token (floats are kept as their
tokens). -/
def parseLine (l : List Char) : Option (List Char × List Char × List Char) :=
  match pySplit l with
  | [a, b, _, _, e] => some (a, b, e)
  | _ => Option.none

/-!
## `core.py`: `read_multicomponentresults`
-/

/-- The line walk of `read_multicomponentresults` (`core.py`, lines
267-288): blank and comment lines are skipped; a line containing `X0`
consumes three lines and opens a new object with its first component; a
`FUNCTION ` line opens an additional component on the last object; any
other line parses as a parameter of the last component of the last
object. -/
def mcrLoop (st : MCRes (List Char)) : List (List Char) → Option (MCRes (List Char))
  | [] => some st
  | l :: rest =>
      if pySplit l = [] then mcrLoop st rest
      else if l.headD ' ' = '#' then mcrLoop st rest
      else if listContains ("X0".toList) l = true then
        match rest with
        | l2 :: l3 :: rest2 =>
            (parseLine l).bind fun pl =>
            (parseLine l2).bind fun pl2 =>
            (funcNameOf l3).bind fun fn =>
            let st1 := st.add_object pl.2.1 pl.2.2 pl2.2.1 pl2.2.2
            (st1.add_function ((st1.objs.length : ℤ) - 1) (String.mk fn)).bind fun st2 =>
            mcrLoop st2 rest2
        | _ => Option.none
      else if ("FUNCTION ".toList.isPrefixOf l) = true then
        (funcNameOf l).bind fun fn =>
        (st.add_function ((st.objs.length : ℤ) - 1) (String.mk fn)).bind fun st1 =>
        mcrLoop st1 rest
      else
        (parseLine l).bind fun pl =>
        (st.objs.getLast?.map (fun ob => ob.comps.length)).bind fun nc =>
        (st.add_parameter ((st.objs.length : ℤ) - 1) (some ((nc : ℤ) - 1))
          (String.mk pl.1) pl.2.1 pl.2.2).bind fun st1 =>
        mcrLoop st1 rest

/-- `read_multicomponentresults(fn)` (`core.py`, lines 249-289): the
reduced chi-square token is taken from the first comment whose second
token is `Reduced` (its last token; `float()` is kept as the token),
then the line walk builds the result tree. -/
def readMCR (lines : List (List Char)) : Option (MCRes (List Char)) := do
  let comments := lines.filter (fun l => l.headD ' ' = '#')
  let toks ← mapO (fun c =>
      match pySplit c with
      | a :: b :: rest =>
          match (a :: b :: rest).getLast? with
          | some last => some (b, last)
          | Option.none => Option.none
      | _ => Option.none) comments
  let reds := toks.filter (fun p => p.1 = "Reduced".toList)
  let red ← (reds.head?).map Prod.snd
  mcrLoop ⟨some red, []⟩ lines

/-!
## `pymfitter.py`: `PymFitter.read_results`

The parsed result entries are kept as association lists in insertion
order (`self.results['comp_i']` dict); values are the raw tokens
(`float()` is modelled as the token, with digit-token hypotheses
guaranteeing the Python conversion would succeed).
-/

/-- The `params` filter of `PymFitter.read_results` (`pymfitter.py`,
lines 57-59): not a comment, not the blank line, no leading `F`, not an
`X0`/`Y0` line. -/
def prmFilter (l : List Char) : Bool :=
  !(l.headD ' ' = '#') && !(l.take 2 = ['\n']) && !(l.headD ' ' = 'F') &&
  !(l.take 2 = "X0".toList) && !(l.take 2 = "Y0".toList)

/-- The `cen_text` filter (`pymfitter.py`, lines 60-61): not a comment
and starting with `X0` or `Y0`. -/
def cenFilter (l : List Char) : Bool :=
  !(l.headD ' ' = '#') && (l.take 2 = "X0".toList || l.take 2 = "Y0".toList)

/-- Python list indexing with negative wrap-around (`centers[cen_num]`
where `cen_num` may be `-1`); out of range is an `IndexError`. -/
def pyIdx {α : Type} (l : List α) (i : ℤ) : Option α :=
  if 0 ≤ i then l[i.toNat]?
  else if i.natAbs ≤ l.length then l[l.length - i.natAbs]? else Option.none

/-- The `centers` construction (`pymfitter.py`, lines 63-69): for each
`i < len(cen_text) // 2`, destructure `cen_text[i]` and `cen_text[i+1]`
into exactly five tokens each and keep `(x0, y0, xerr, yerr)`.  (The
source pairs lines `i` and `i+1`, not `2i` and `2i+1`.) -/
def mkCenters (cen : List (List Char)) :
    Option (List (List Char × List Char × List Char × List Char)) :=
  mapO (fun i =>
      (cen[i]?).bind fun l1 =>
      (cen[i + 1]?).bind fun l2 =>
      match pySplit l1, pySplit l2 with
      | [_, x0, _, _, xerr], [_, y0, _, _, yerr] => some (x0, y0, xerr, yerr)
      | _, _ => Option.none)
    (List.range (cen.length / 2))

/-- The per-component parameter walk (`pymfitter.py`, lines 85-91):
for each name in `param_names` order, take the next `params` line,
split it, take the first two tokens as `(name, val)` and the last as
the error, assert the name matches, and record `par` and `par + '_err'`
in insertion order.  Returns the entries and the remaining `params`
lines (the advanced `par_num` cursor). -/
def readCompParams (params : List (List Char)) : List String →
    Option (List (String × List Char) × List (List Char))
  | [] => some ([], params)
  | par :: rest =>
      match params with
      | [] => Option.none
      | line :: ptail =>
          match pySplit line with
          | tok1 :: tok2 :: more =>
              match (tok1 :: tok2 :: more).getLast? with
              | some err =>
                  if tok1 = par.toList then
                    (readCompParams ptail rest).map (fun r =>
                      ((par, tok2) :: (par ++ "_err", err) :: r.1, r.2))
                  else Option.none
              | Option.none => Option.none
          | _ => Option.none

/-- The main loop of `PymFitter.read_results` (`pymfitter.py`, lines
71-91): one result entry per component, in order; `cen_num` starts at
`-1` and advances on components that carry a center; every entry is
seeded with `function`, `X0`, `Y0`, `X0_err`, `Y0_err`, then the
per-parameter pairs. -/
def readComps (comps : List MComp) (params : List (List Char))
    (centers : List (List Char × List Char × List Char × List Char)) (cenNum : ℤ) :
    Option (List (List (String × List Char))) :=
  match comps with
  | [] => some []
  | c :: cs =>
      let cenNum2 := if c.X0.isSome then cenNum + 1 else cenNum
      (pyIdx centers cenNum2).bind fun cen =>
      (readCompParams params c.param_names).bind fun pr =>
      (readComps cs pr.2 centers cenNum2).map (fun rest =>
        (("function", c.name.toList) :: ("X0", cen.1) :: ("Y0", cen.2.1) ::
         ("X0_err", cen.2.2.1) :: ("Y0_err", cen.2.2.2) :: pr.1) :: rest)

/-- `PymFitter.read_results` (`pymfitter.py`, lines 52-91): filter the
lines, build `centers`, fetch `comp_1 .. comp_ncomp` (a missing
attribute fails) and walk the components. -/
def pymReadResults (m : Model) (lines : List (List Char)) :
    Option (List (List (String × List Char))) := do
  let params := lines.filter prmFilter
  let cen_text := lines.filter cenFilter
  let centers ← mkCenters cen_text
  let comps ← mapO (fun i => m.comps[i]?) (List.range m.ncomp)
  readComps comps params centers (-1)

/-- Keys of a result entry with the `_err`-suffixed ones removed. -/
def keysNoErr (r : List (String × List Char)) : List String :=
  (r.map Prod.fst).filter (fun k => !("_err".toList.isSuffixOf k.toList))

/-!
## Hand-constructed result text congruent to a model

One component of result text, in the canonical 5-token line shape the
parser expects (name, value, two fillers, error): optional `X0`/`Y0` center
lines, the `FUNCTION` line, then one line per parameter name.
-/

/-- A model component together with the hand-chosen value/error tokens
of its congruent result text. -/
structure GComp where
  comp : MComp
  center : Option ((List Char × List Char) × (List Char × List Char))
  pvals : List (List Char × List Char)

/-- The filler token in column 3 of a generated line. -/
def hashTok : List Char := ['#']

/-- The filler token in column 4 of a generated line. -/
def pmTok : List Char := ['+', '/', '-']

/-- Build one text line from its whitespace-separated words (single
spaces, trailing newline, as `readlines()` would return it). -/
def mkLine (ws : List (List Char)) : List Char :=
  ws.foldr (fun w acc => w ++ ' ' :: acc) ['\n']

/-- A generated parameter line. -/
def paramLineOf (p : String) (pv : List Char × List Char) : List Char :=
  mkLine [p.toList, pv.1, hashTok, pmTok, pv.2]

/-- The generated parameter lines of one component. -/
def genParamLines (g : GComp) : List (List Char) :=
  List.zipWith paramLineOf g.comp.param_names g.pvals

/-- The generated center lines of one component (two lines when it has
a center, none otherwise). -/
def genCenLines (g : GComp) : List (List Char) :=
  match g.center with
  | some ((xv, xe), (yv, ye)) =>
      [mkLine ["X0".toList, xv, hashTok, pmTok, xe],
       mkLine ["Y0".toList, yv, hashTok, pmTok, ye]]
  | Option.none => []

/-- All generated lines of one component. -/
def genCompLines (g : GComp) : List (List Char) :=
  genCenLines g ++ [mkLine ["FUNCTION".toList, g.comp.name.toList]] ++ genParamLines g

/-- The hand-constructed result text congruent to the model. -/
def genResultLines (gs : List GComp) : List (List Char) :=
  (gs.map genCompLines).flatten

/-- The model described by the generation data. -/
def gModel (gs : List GComp) : Model :=
  ⟨gs.map (fun g => g.comp.name), gs.length, gs.map (fun g => g.comp)⟩

/-- A value token: non-empty and all digits (so Python `float()` would
accept it). -/
def isDigitTok (t : List Char) : Bool := !t.isEmpty && t.all Char.isDigit

/-- A parameter name that survives tokenization and the `read_results`
filters: non-empty, whitespace-free, not starting like a comment,
`FUNCTION`, `X0` or `Y0` line, not `_err`-suffixed and not the literal
key `function`. -/
def goodPName (p : String) : Bool :=
  !p.toList.isEmpty && p.toList.all (fun c => !isWS c) &&
  !(p.toList.headD ' ' = '#') && !(p.toList.headD ' ' = 'F') &&
  !(p.toList.take 2 = "X0".toList) && !(p.toList.take 2 = "Y0".toList) &&
  !("_err".toList.isSuffixOf p.toList) && !(p = "function")

/-- Structural congruence of the generation data with its component:
the text has center lines exactly when the component does, one value
pair per parameter name, well-formed distinct names and digit
tokens. -/
def GComp.wf (g : GComp) : Prop :=
  g.center.isSome = g.comp.X0.isSome ∧
  g.pvals.length = g.comp.param_names.length ∧
  g.comp.param_names.Nodup ∧
  (∀ p ∈ g.comp.param_names, goodPName p = true) ∧
  (∀ pv ∈ g.pvals, isDigitTok pv.1 = true ∧ isDigitTok pv.2 = true) ∧
  (match g.center with
   | some ((xv, xe), (yv, ye)) =>
       isDigitTok xv = true ∧ isDigitTok xe = true ∧
       isDigitTok yv = true ∧ isDigitTok ye = true
   | Option.none => True)

/-!
## Helper lemmas about the embedding combinators
-/

/-- Concrete component for the `c4_model_center_expansion` witness: the
default Sersic component with center `(50, 60)` and `dcent = 30`. -/
def c4comp : MComp :=
  ⟨"Sersic", ["PA", "ell", "n", "I_e", "r_e"], DEFAULT_SERSIC,
   [("PA", ⟨"PA", 20, some 0, some 360, false, false⟩),
    ("ell", ⟨"ell", mkRat 1 5, some 0, some (mkRat 99 100), false, false⟩),
    ("n", ⟨"n", 1, some (mkRat 1 100), some 5, false, false⟩),
    ("I_e", ⟨"I_e", mkRat 1 20, some 0, some 1000, false, false⟩),
    ("r_e", ⟨"r_e", 20, some 0, some 5000, false, false⟩)],
   some ⟨"X0", 50, some 20, some 80, false, false⟩,
   some ⟨"Y0", 60, some 30, some 90, false, false⟩⟩

/-- Concrete model for the `c4_model_center_expansion` witness. -/
def c4model : Model := ⟨["Sersic"], 1, [c4comp]⟩

/-- A concrete Sersic parameter dict with no center (`X0` and `Y0` are
`None`), for the C6 counterexample. -/
def c6dict : List (String × PyV) :=
  [("X0", PyV.none), ("Y0", PyV.none), ("PA", .num 18), ("ell", .num 0),
   ("n", .num 1), ("I_e", .num 15), ("r_e", .num 25)]

/-- A concrete Sersic parameter dict with a center, for the C6
witness. -/
def c6dictY : List (String × PyV) :=
  [("X0", .list [.num 330, .num 300, .num 360]), ("Y0", .list [.num 308, .num 280, .num 340]),
   ("PA", .num 18), ("ell", .num 0), ("n", .num 1), ("I_e", .num 15), ("r_e", .num 25)]

/-- A concrete Sersic parameter dict carrying caller-supplied `X0`/`Y0`
entries, for the C10 statements. -/
def c10dict : List (String × PyV) :=
  [("X0", .num 5), ("Y0", .num 6), ("PA", .num 18), ("ell", .num 0), ("n", .num 1),
   ("I_e", .num 15), ("r_e", .num 25)]

/-- A concrete one-object, one-component config tree. -/
def c10tree : MCModel :=
  ⟨[⟨0, [.num 50, .num 40, .num 60], [.num 60, .num 50, .num 70],
     [("Sersic", c10dict)]⟩]⟩

/-- A word that tokenization keeps whole: non-empty and
whitespace-free. -/
def goodTok (t : List Char) : Prop := t ≠ [] ∧ ∀ c ∈ t, isWS c = false

/-- The parameter entries `read_results` records for one component:
`(par, value)` then `(par + '_err', error)`, in `param_names` order. -/
def entriesOf : List String → List (List Char × List Char) → List (String × List Char)
  | p :: ps, pv :: pvs => (p, pv.1) :: (p ++ "_err", pv.2) :: entriesOf ps pvs
  | _, _ => []

/-- A concrete Sersic component with a center, as
`ModelComponent('Sersic', None, [[50, 20, 80], [60, 30, 90]])` builds it. -/
def c1comp : MComp :=
  ⟨"Sersic", ["PA", "ell", "n", "I_e", "r_e"], DEFAULT_SERSIC,
   [("PA", ⟨"PA", 20, some 0, some 360, false, false⟩),
    ("ell", ⟨"ell", mkRat 1 5, some 0, some (mkRat 99 100), false, false⟩),
    ("n", ⟨"n", 1, some (mkRat 1 100), some 5, false, false⟩),
    ("I_e", ⟨"I_e", mkRat 1 20, some 0, some 1000, false, false⟩),
    ("r_e", ⟨"r_e", 20, some 0, some 5000, false, false⟩)],
   some ⟨"X0", 50, some 20, some 80, false, false⟩,
   some ⟨"Y0", 60, some 30, some 90, false, false⟩⟩

/-- Generation data for `c1comp`: center tokens `50 ± 1`, `60 ± 1` and
one value/error token pair per parameter. -/
def c1g : GComp :=
  ⟨c1comp,
   some ((['5', '0'], ['1']), (['6', '0'], ['1'])),
   [(['2', '0'], ['1']), (['1'], ['1']), (['1'], ['1']),
    (['1'], ['1']), (['2', '0'], ['1'])]⟩

/-- Elements of a successful `mapO` come from applying `f` to the
corresponding input element. -/
theorem mapO_getElem {α β : Type} (f : α → Option β) :
    ∀ (l : List α) (r : List β), mapO f l = some r →
      ∀ (i : ℕ) (b : β), r[i]? = some b → ∃ a, l[i]? = some a ∧ f a = some b := by
  intro l
  induction l with
  | nil =>
    intro r h i b hb
    simp only [mapO, Option.some.injEq] at h
    subst h; simp at hb
  | cons x xs ih =>
    intro r h i b hb
    simp only [mapO] at h
    cases hfx : f x with
    | none => simp [hfx] at h
    | some bx =>
      simp only [hfx, Option.some_bind] at h
      cases hms : mapO f xs with
      | none => simp [hms] at h
      | some rs =>
        simp only [hms, Option.some_bind, Option.some.injEq] at h
        subst h
        cases i with
        | zero =>
          simp only [List.getElem?_cons_zero, Option.some.injEq] at hb
          exact ⟨x, by simp, hb ▸ hfx⟩
        | succ n =>
          simp only [List.getElem?_cons_succ] at hb ⊢
          exact ih rs hms n b hb

/-- An element of a zip projects to elements of both input lists. -/
theorem zip_getElem_both {α β : Type} :
    ∀ (l1 : List α) (l2 : List β) (i : ℕ) (p : α × β),
      (l1.zip l2)[i]? = some p → l1[i]? = some p.1 ∧ l2[i]? = some p.2 := by
  intro l1
  induction l1 with
  | nil => intro l2 i p h; simp at h
  | cons a l ih =>
    intro l2 i p h
    cases l2 with
    | nil => simp at h
    | cons b l2 =>
      cases i with
      | zero =>
        simp only [List.zip_cons_cons, List.getElem?_cons_zero, Option.some.injEq] at h ⊢
        subst h; exact ⟨rfl, rfl⟩
      | succ n =>
        simp only [List.zip_cons_cons, List.getElem?_cons_succ] at h ⊢
        exact ih l2 n p h

/-- Evaluation of `Param.__init__` with both bounds supplied and
`relative_limits = False`: it succeeds exactly when the bounds bracket
the value. -/
theorem Param.init_absolute (name : String) (v b1 b2 : ℚ) (fx : Bool) :
    Param.init name v (some b1) (some b2) fx false =
      if b1 ≤ v ∧ v ≤ b2 then some ⟨name, v, some b1, some b2, fx, false⟩
      else Option.none := by
  simp only [Param.init, Param.setValue, Param.setVmin, Param.setVmax, optTruthy,
    Bool.false_eq_true, false_and, if_false, Option.some_bind]
  by_cases h1 : b1 ≤ v
  · rw [if_pos h1]
    simp only [Option.some_bind]
    by_cases h2 : v ≤ b2
    · rw [if_pos h2, if_pos ⟨h1, h2⟩]
    · rw [if_neg h2, if_neg (fun hc => h2 hc.2)]
  · rw [if_neg h1, if_neg (fun hc => h1 hc.1)]
    simp

/-- Evaluation of `Param.__init__` with no bounds supplied. -/
theorem Param.init_nobounds (name : String) (v : ℚ) (fx rel : Bool) :
    Param.init name v Option.none Option.none fx rel =
      some ⟨name, v, Option.none, Option.none, fx, rel⟩ := rfl

/-- The `X0`/`Y0` parameters of a successfully constructed
`ModelComponent` with a center are the `_parse_limits`-destructured
`Param`s of the two center specs. -/
theorem MComp.init_X0Y0 {name : String} {pars : List (String × PyV)} {cx cy : PyV}
    {rel : Bool} {comp : MComp}
    (h : MComp.init name pars (some (cx, cy)) rel = some comp) :
    ∃ px py, comp.X0 = some px ∧ comp.Y0 = some py ∧
      (parseLimits cx).bind (fun s => mkParam "X0" s.1 s.2.1 s.2.2.1 s.2.2.2 rel) = some px ∧
      (parseLimits cy).bind (fun s => mkParam "Y0" s.1 s.2.1 s.2.2.1 s.2.2.2 rel) = some py := by
  simp only [MComp.init, bind, Option.bind_eq_some, Option.pure_def, Option.some.injEq] at h
  obtain ⟨pn, hpn, dflt, hdflt, ip, hip, plist, hplist, h⟩ := h
  obtain ⟨⟨v1, lo1, hi1, fx1⟩, hs1, px, hpx, ⟨v2, lo2, hi2, fx2⟩, hs2, py, hpy, hc⟩ := h
  subst hc
  exact ⟨px, py, rfl, rfl, by rw [hs1]; exact hpx, by rw [hs2]; exact hpy⟩

/-!
## Theorems: `Param` invariants and limit-spec destructuring
-/

/-- Claim C2: a `Param` constructed with both bounds set satisfies
`vmin <= value <= vmax`, and each accepted mutation of `value`, `vmin`
or `vmax` preserves it, while each mutation that would violate it is
rejected (`none`, modelling the assertion error raised before any field
is assigned, so the stored state is unchanged). -/
theorem c2_param_bounds_invariant :
    (∀ (name : String) (v b1 b2 : ℚ) (fx rel : Bool) (p : Param),
        Param.init name v (some b1) (some b2) fx rel = some p → p.boundedInv) ∧
    (∀ (p : Param) (lo hi : ℚ), p.vmin = some lo → p.vmax = some hi →
        lo ≤ p.value → p.value ≤ hi →
        (∀ v : ℚ,
          (lo ≤ v ∧ v ≤ hi →
            p.setValue v = some { p with value := v } ∧
            Param.boundedInv { p with value := v }) ∧
          (¬ (lo ≤ v ∧ v ≤ hi) → p.setValue v = Option.none)) ∧
        (∀ m : ℚ,
          (m ≤ p.value →
            p.setVmin m = some { p with vmin := some m } ∧
            Param.boundedInv { p with vmin := some m }) ∧
          (¬ m ≤ p.value → p.setVmin m = Option.none)) ∧
        (∀ M : ℚ,
          (p.value ≤ M →
            p.setVmax M = some { p with vmax := some M } ∧
            Param.boundedInv { p with vmax := some M }) ∧
          (¬ p.value ≤ M → p.setVmax M = Option.none))) := by
  constructor
  · intro name v b1 b2 fx rel p h
    simp only [Param.init, Param.setValue, Param.setVmin, Param.setVmax,
      Option.some_bind] at h
    split_ifs at h with h1 h2 h3
    all_goals simp only [Option.some_bind, Option.none_bind, reduceCtorEq] at h
    all_goals split_ifs at h with h4
    all_goals simp only [Option.some.injEq, reduceCtorEq] at h
    · subst h; exact ⟨v - b1, v + b2, rfl, rfl, h2, h4⟩
    · subst h; exact ⟨b1, b2, rfl, rfl, h3, h4⟩
  · intro p lo hi hmin hmax hlo hhi
    refine ⟨fun v => ⟨fun hv => ⟨?_, ?_⟩, fun hv => ?_⟩,
            fun m => ⟨fun hm => ⟨?_, ?_⟩, fun hm => ?_⟩,
            fun M => ⟨fun hM => ⟨?_, ?_⟩, fun hM => ?_⟩⟩
    · simp only [Param.setValue, hmin, hmax, if_pos hv]
    · exact ⟨lo, hi, hmin, hmax, hv.1, hv.2⟩
    · simp only [Param.setValue, hmin, hmax, if_neg hv]
    · simp only [Param.setVmin, if_pos hm]
    · exact ⟨m, hi, rfl, hmax, hm, hhi⟩
    · simp only [Param.setVmin, if_neg hm]
    · simp only [Param.setVmax, if_pos hM]
    · exact ⟨lo, M, hmin, rfl, hlo, hM⟩
    · simp only [Param.setVmax, if_neg hM]

/-- Witness instantiating `c2_param_bounds_invariant` at the default
`PA` parameter `[20, 0, 360]`. -/
theorem c2_param_bounds_invariant_witness :
    Param.boundedInv ⟨"PA", 20, some 0, some 360, false, false⟩ ∧
    (⟨"PA", 20, some 0, some 360, false, false⟩ : Param).setValue 400 = Option.none := by
  constructor
  · exact c2_param_bounds_invariant.1 "PA" 20 0 360 false false _ (by decide)
  · exact ((c2_param_bounds_invariant.2 ⟨"PA", 20, some 0, some 360, false, false⟩
      0 360 rfl rfl (by norm_num) (by norm_num)).1 400).2 (by norm_num)

/-- Claim C5: limit-spec destructuring.  A 3-element spec yields the
value, those exact bounds and `fixed = false`; a 2-element spec
`[v, 'fixed']` yields the value, null bounds and `fixed = true`; a bare
scalar yields the value, null bounds and `fixed = false`; a list of any
other length fails with an error (`none`). -/
theorem c5_parse_limits_cases :
    (∀ v lo hi : PyS, parseLimits (.list [v, lo, hi]) = some (v.toV, lo.toV, hi.toV, false)) ∧
    (∀ v : PyS, parseLimits (.list [v, .str "fixed"]) = some (v.toV, .none, .none, true)) ∧
    (∀ v : PyV, v.isList = false → parseLimits v = some (v, .none, .none, false)) ∧
    (∀ l : List PyS, l.length ≠ 2 → l.length ≠ 3 → parseLimits (.list l) = Option.none) := by
  refine ⟨fun v lo hi => rfl, fun v => rfl, fun v hv => ?_, fun l h2 h3 => ?_⟩
  · cases v <;> simp_all [parseLimits, PyV.isList]
  · rcases l with _ | ⟨a, _ | ⟨b, _ | ⟨c, _ | ⟨d, l⟩⟩⟩⟩ <;> simp_all [parseLimits]

/-- Witness instantiating `c5_parse_limits_cases` at concrete specs. -/
theorem c5_parse_limits_cases_witness :
    parseLimits (.list [.num 1, .num 0, .num 5]) = some (.num 1, .num 0, .num 5, false) ∧
    parseLimits (.list [.num 1, .str "fixed"]) = some (.num 1, .none, .none, true) ∧
    parseLimits (.num 7) = some (.num 7, .none, .none, false) ∧
    parseLimits (.list [.num 1, .num 2, .num 3, .num 4]) = Option.none :=
  ⟨c5_parse_limits_cases.1 (.num 1) (.num 0) (.num 5),
   c5_parse_limits_cases.2.1 (.num 1),
   c5_parse_limits_cases.2.2.1 (.num 7) rfl,
   c5_parse_limits_cases.2.2.2 [.num 1, .num 2, .num 3, .num 4] (by decide) (by decide)⟩

/-- Claim C9 is false as stated: `Param.__init__` with `fixed=True` and
both bounds supplied stores the bounds without clearing the flag, so a
`Param` that is simultaneously fixed and carrying bounds is reachable
by construction alone. -/
theorem c9_counterexample :
    ∃ p : Param, Param.init "n" 5 (some 0) (some 10) true false = some p ∧
      p.fixed = true ∧ p.vmin ≠ Option.none ∧ p.vmax ≠ Option.none :=
  ⟨⟨"n", 5, some 0, some 10, true, false⟩, by decide, rfl, by simp, by simp⟩

/-- Claim C9 (amended): setting `fixed = true` through the `fixed`
setter does clear both bounds, but the fixed-and-bounded state is
reachable: constructing with `fixed=True` and both bounds supplied
yields a `Param` that is simultaneously fixed and carries bounds. -/
theorem c9_fixed_setter_clears_bounds :
    (∀ p : Param, (p.setFixed true).fixed = true ∧
      (p.setFixed true).vmin = Option.none ∧ (p.setFixed true).vmax = Option.none) ∧
    (∃ p : Param, Param.init "n" 5 (some 0) (some 10) true false = some p ∧
      p.fixed = true ∧ p.vmin = some 0 ∧ p.vmax = some 10) :=
  ⟨fun p => ⟨rfl, rfl, rfl⟩,
   ⟨⟨"n", 5, some 0, some 10, true, false⟩, by decide, rfl, rfl, rfl⟩⟩

/-- Claim C4 is false as stated: for `center = (3/2, y)` and
`center_delta = 1` the code takes the lower bound `pos - delta = 1/2`
because it is positive, whereas `max(pos - delta, 1) = 1`; the clamp to
`1` only applies when `pos - delta <= 0`. -/
theorem c4_counterexample :
    expandAxis (3/2) (DCent.num 1) =
      PyV.list [.num (3/2), .num (mkRat 1 2), .num (5/2)] ∧
    ((1 : ℚ)/2 ≠ max ((3 : ℚ)/2 - 1) 1) := by
  constructor
  · simp only [expandAxis]
    norm_num
  · norm_num

/-- Claim C4 (amended): in a default `Model` construction (with
`relative_limits` off), a component given a center and a positive
numeric `dcent` gets center axes expanded to
`[pos, pos - dcent if pos - dcent > 0 else 1, pos + dcent]` — the lower
bound is clamped to `1` only when `pos - dcent <= 0`, not to
`max(pos - dcent, 1)` — while `dcent = 0` or `dcent = 'fixed'` marks
each axis fixed at its given value with no bounds. -/
theorem c4_model_center_expansion :
    ∀ (funcs : List String) (params : List (List (String × PyV)))
      (centers : List (Option (ℚ × ℚ))) (dc : DCent) (m : Model),
      Model.init funcs params centers dc false = some m →
      ∀ (i : ℕ) (x y : ℚ) (comp : MComp),
        centers[i]? = some (some (x, y)) → m.comps[i]? = some comp →
        (∀ d : ℚ, dc = .num d → 0 < d →
          comp.X0 = some ⟨"X0", x, some (if x - d > 0 then x - d else 1),
            some (x + d), false, false⟩ ∧
          comp.Y0 = some ⟨"Y0", y, some (if y - d > 0 then y - d else 1),
            some (y + d), false, false⟩) ∧
        ((dc = .num 0 ∨ dc = .strFixed) →
          comp.X0 = some ⟨"X0", x, Option.none, Option.none, true, false⟩ ∧
          comp.Y0 = some ⟨"Y0", y, Option.none, Option.none, true, false⟩) := by
  intro funcs params centers dc m hm i x y comp hcen hcomp
  simp only [Model.init, bind, Option.bind_eq_some, Option.pure_def, Option.some.injEq] at hm
  obtain ⟨comps, hcomps, hm⟩ := hm
  subst hm
  obtain ⟨a, ha, hfa⟩ := mapO_getElem _ _ _ hcomps i comp hcomp
  obtain ⟨f, pr, cen⟩ := a
  obtain ⟨hf1, hrest⟩ := zip_getElem_both _ _ _ _ ha
  obtain ⟨hpr, hc⟩ := zip_getElem_both _ _ _ _ hrest
  rw [hcen] at hc
  injection hc with hc
  subst hc
  obtain ⟨px, py, hX0, hY0, hpx, hpy⟩ := MComp.init_X0Y0 hfa
  constructor
  · rintro d rfl hd
    have hdne : d ≠ 0 := ne_of_gt hd
    set mx : ℚ := if x - d > 0 then x - d else 1 with hmx
    set my : ℚ := if y - d > 0 then y - d else 1 with hmy
    rw [show expandAxis x (.num d) = PyV.list [.num x, .num mx, .num (x + d)] from by
      simp only [expandAxis, if_pos hdne, hmx]] at hpx
    rw [show expandAxis y (.num d) = PyV.list [.num y, .num my, .num (y + d)] from by
      simp only [expandAxis, if_pos hdne, hmy]] at hpy
    simp only [parseLimits, PyS.toV, Option.some_bind, mkParam, pyNum, pyOptNum,
      bind, Option.bind] at hpx hpy
    rw [Param.init_absolute] at hpx hpy
    split_ifs at hpx with h1
    · split_ifs at hpy with h2
      · injection hpx with hpx
        injection hpy with hpy
        subst hpx; subst hpy
        exact ⟨hX0, hY0⟩
  · intro hdc
    have hex : ∀ z : ℚ, expandAxis z dc = PyV.list [.num z, .str "fixed"] := by
      rcases hdc with rfl | rfl <;> intro z <;> simp [expandAxis]
    rw [hex x] at hpx
    rw [hex y] at hpy
    simp only [parseLimits, PyS.toV, Option.some_bind, mkParam, pyNum, pyOptNum,
      bind, Option.bind, Param.init_nobounds] at hpx hpy
    injection hpx with hpx
    injection hpy with hpy
    subst hpx; subst hpy
    exact ⟨hX0, hY0⟩

/-- Looking up the key just assigned returns the assigned value. -/
theorem dictGet_dictSet_self {K V : Type} [DecidableEq K] (d : List (K × V)) (k : K) (v : V) :
    dictGet (dictSet d k v) k = some v := by
  induction d with
  | nil => simp [dictSet, dictGet, List.find?]
  | cons kv rest ih =>
    obtain ⟨k', v'⟩ := kv
    by_cases h : k' = k
    · subst h
      simp [dictSet, dictGet, List.find?]
    · simp only [dictSet, if_neg h]
      simpa [dictGet, List.find?, h] using ih

/-- Assignment leaves the other keys' values unchanged. -/
theorem dictGet_dictSet_ne {K V : Type} [DecidableEq K] (d : List (K × V)) (k k' : K)
    (v : V) (h : k' ≠ k) : dictGet (dictSet d k v) k' = dictGet d k' := by
  induction d with
  | nil => simp [dictSet, dictGet, List.find?, Ne.symm h]
  | cons kv rest ih =>
    obtain ⟨k0, v0⟩ := kv
    by_cases h0 : k0 = k
    · subst h0
      simp [dictSet, dictGet, List.find?, Ne.symm h]
    · simp only [dictSet, if_neg h0]
      by_cases h1 : k0 = k'
      · subst h1; simp [dictGet, List.find?]
      · simpa [dictGet, List.find?, h1] using ih

/-- Frame property of the component loop of
`write_multicomponentconfig`: on success the nests keep their count,
order and function names, and each parameter dict is exactly the old
one with `X0` and `Y0` assigned to `None`. -/
theorem writeObjComps_spec :
    ∀ (cs : List (String × List (String × PyV))) (ls : List WLine)
      (cs' : List (String × List (String × PyV))),
      writeObjComps cs = some (ls, cs') →
      cs'.length = cs.length ∧
      ∀ (j : ℕ) c c', cs[j]? = some c → cs'[j]? = some c' →
        c'.1 = c.1 ∧ c'.2 = dictSet (dictSet c.2 "X0" PyV.none) "Y0" PyV.none := by
  intro cs
  induction cs with
  | nil =>
    intro ls cs' h
    simp only [writeObjComps, Option.some.injEq, Prod.mk.injEq] at h
    obtain ⟨h1, h2⟩ := h
    subst h2
    exact ⟨rfl, fun j c c' hc _ => by simp at hc⟩
  | cons c rest ih =>
    intro ls cs' h
    obtain ⟨fn, d⟩ := c
    simp only [writeObjComps, bind, Option.bind_eq_some, Option.pure_def,
      Option.some.injEq] at h
    obtain ⟨wl, hwl, ⟨ls2, rest'⟩, hrec, heq⟩ := h
    obtain ⟨hls, hcs⟩ := Prod.mk.injEq .. ▸ heq
    subst hcs
    obtain ⟨hlen, hspec⟩ := ih ls2 rest' hrec
    refine ⟨by simp [hlen], fun j c c' hc hc' => ?_⟩
    cases j with
    | zero =>
      simp only [List.getElem?_cons_zero, Option.some.injEq] at hc hc'
      subst hc; subst hc'
      exact ⟨rfl, rfl⟩
    | succ n =>
      simp only [List.getElem?_cons_succ] at hc hc'
      exact hspec n c c' hc hc'

/-- Frame property of the per-object part of
`write_multicomponentconfig`: the object's number and position survive,
and the component nests change exactly as `writeObjComps` describes. -/
theorem writeObj_spec (o : MObj) (ls : List WLine) (o' : MObj)
    (h : writeObj o = some (ls, o')) :
    o'.object_number = o.object_number ∧ o'.posX = o.posX ∧ o'.posY = o.posY ∧
    ∃ cls, writeObjComps o.comps = some (cls, o'.comps) := by
  simp only [writeObj, bind, Option.bind_eq_some, Option.pure_def, Option.some.injEq] at h
  obtain ⟨xl, hxl, yl, hyl, ⟨cls, comps'⟩, hcls, heq⟩ := h
  obtain ⟨hls, ho⟩ := Prod.mk.injEq .. ▸ heq
  subst ho
  exact ⟨rfl, rfl, rfl, cls, hcls⟩

/-- Frame property of the object loop of
`write_multicomponentconfig`. -/
theorem writeMCCLoop_spec :
    ∀ (objs : List MObj) (ls : List WLine) (objs' : List MObj),
      writeMCCLoop objs = some (ls, objs') →
      objs'.length = objs.length ∧
      ∀ (i : ℕ) o o', objs[i]? = some o → objs'[i]? = some o' →
        o'.object_number = o.object_number ∧ o'.posX = o.posX ∧ o'.posY = o.posY ∧
        o'.comps.length = o.comps.length ∧
        ∀ (j : ℕ) c c', o.comps[j]? = some c → o'.comps[j]? = some c' →
          c'.1 = c.1 ∧ c'.2 = dictSet (dictSet c.2 "X0" PyV.none) "Y0" PyV.none := by
  intro objs
  induction objs with
  | nil =>
    intro ls objs' h
    simp only [writeMCCLoop, Option.some.injEq, Prod.mk.injEq] at h
    obtain ⟨h1, h2⟩ := h
    subst h2
    exact ⟨rfl, fun i o o' ho _ => by simp at ho⟩
  | cons o rest ih =>
    intro ls objs' h
    simp only [writeMCCLoop, bind, Option.bind_eq_some, Option.pure_def,
      Option.some.injEq] at h
    obtain ⟨⟨ol, o1⟩, hobj, ⟨ls2, rest'⟩, hrec, heq⟩ := h
    obtain ⟨hls, hos⟩ := Prod.mk.injEq .. ▸ heq
    subst hos
    obtain ⟨hn, hx, hy, cls, hcls⟩ := writeObj_spec o ol o1 hobj
    obtain ⟨hlen2, hspec2⟩ := writeObjComps_spec o.comps cls o1.comps hcls
    obtain ⟨hlen, hspec⟩ := ih ls2 rest' hrec
    refine ⟨by simp [hlen], fun i oi oi' hoi hoi' => ?_⟩
    cases i with
    | zero =>
      simp only [List.getElem?_cons_zero, Option.some.injEq] at hoi hoi'
      subst hoi; subst hoi'
      exact ⟨hn, hx, hy, hlen2, hspec2⟩
    | succ n =>
      simp only [List.getElem?_cons_succ] at hoi hoi'
      exact hspec n oi oi' hoi hoi'

/-- `listModifyO` at the last position of `l ++ [a]` updates `a`. -/
theorem listModifyO_append_last {α : Type} (f : α → Option α) :
    ∀ (l : List α) (a b : α), f a = some b →
      listModifyO f (l ++ [a]) l.length = some (l ++ [b]) := by
  intro l
  induction l with
  | nil => intro a b h; simp [listModifyO, h]
  | cons x t ih => intro a b h; simp [listModifyO, ih a b h]

/-- `add_function` at the last object index appends a component nest to
the last object. -/
theorem MCRes.add_function_last {V : Type} (m : MCRes V) (objs0 : List (RObj V))
    (ob : RObj V) (fn : String) (h : m.objs = objs0 ++ [ob]) :
    m.add_function ((m.objs.length : ℤ) - 1) fn =
      some { m with objs := objs0 ++ [ob.add_function fn] } := by
  simp only [MCRes.add_function, h, List.length_append, List.length_cons,
    List.length_nil, Nat.zero_add]
  rw [if_pos (by push_cast; omega)]
  have ht : (((objs0.length + 1 : ℕ) : ℤ) - 1).toNat = objs0.length := by push_cast; omega
  rw [ht, listModifyO_append_last (fun o => some (o.add_function fn)) objs0 ob _ rfl]
  rfl

/-- `add_parameter` aimed at the last object and its last component
inserts the `(name, value)` and `(name + '_err', error)` entries
there. -/
theorem MCRes.add_parameter_last {V : Type} (m : MCRes V) (objs0 : List (RObj V))
    (ob : RObj V) (h : m.objs = objs0 ++ [ob]) (comps0 : List (RComp V)) (c : RComp V)
    (hc : ob.comps = comps0 ++ [c]) (name : String) (v e : V) :
    m.add_parameter ((m.objs.length : ℤ) - 1) (some ((ob.comps.length : ℤ) - 1)) name v e =
      some { m with objs := objs0 ++ [{ ob with comps := comps0 ++
        [{ c with params := dictSet (dictSet c.params name v) (name ++ "_err") e }] }] } := by
  have hf : ob.add_parameter name v e (some ((ob.comps.length : ℤ) - 1)) =
      some { ob with comps := comps0 ++
        [{ c with params := dictSet (dictSet c.params name v) (name ++ "_err") e }] } := by
    simp only [RObj.add_parameter, hc, List.length_append, List.length_cons,
      List.length_nil, Nat.zero_add]
    rw [if_pos (by push_cast; omega)]
    have ht : (((comps0.length + 1 : ℕ) : ℤ) - 1).toNat = comps0.length := by
      push_cast; omega
    rw [ht, listModifyO_append_last
      (fun cn => some { cn with params := dictSet (dictSet cn.params name v) (name ++ "_err") e })
      comps0 c _ rfl]
    rfl
  simp only [MCRes.add_parameter, h, List.length_append, List.length_cons,
    List.length_nil, Nat.zero_add]
  rw [if_pos (by push_cast; omega)]
  have ht : (((objs0.length + 1 : ℕ) : ℤ) - 1).toNat = objs0.length := by push_cast; omega
  rw [ht, listModifyO_append_last
      (fun o => o.add_parameter name v e (some ((ob.comps.length : ℤ) - 1)))
      objs0 ob _ hf]
  rfl

/-- `listModifyO` at the index one past the end always fails. -/
theorem listModifyO_length_none {α : Type} (f : α → Option α) :
    ∀ l : List α, listModifyO f l l.length = Option.none := by
  intro l
  induction l with
  | nil => rfl
  | cons a t ih => simp [listModifyO, ih]

/-- Claim C7 fails on the code: `ResultContainer.__init__` assigns
`self.X0_err = X0` and `self.Y0_err = Y0`, discarding the error
arguments, so after `add_object(50, 1, 60, 2)` and
`add_function(0, 'Sersic')` the seeded `X0_err`/`Y0_err` entries hold
the center values `50`/`60`, not the errors `1`/`2`. -/
theorem c7_error_seed_bug :
    (((MCRes.empty ℚ).add_object 50 1 60 2).add_function 0 "Sersic").map
        (fun m => m.objs.map fun o => o.comps.map fun c => c.params) =
      some [[[("X0", 50), ("X0_err", 50), ("Y0", 60), ("Y0_err", 60)]]] ∧
    ((50 : ℚ) ≠ 1 ∧ (60 : ℚ) ≠ 2) := by
  exact ⟨by decide, by decide, by decide⟩

/-- Claim C8 fails on the code: with the component index omitted,
`ResultContainer.add_parameter` defaults it to `self.ncomponents`, one
past the most-recently-added component, so the dict lookup always
raises `KeyError` (`none`) and nothing is inserted — even when the
object does hold a most-recently-added component. -/
theorem c8_default_component_index_bug :
    (∀ (o : RObj ℚ) (name : String) (v e : ℚ),
        o.add_parameter name v e Option.none = Option.none) ∧
    ((RObj.init 0 (50 : ℚ) 1 60 2).add_function "Sersic").comps.length = 1 ∧
    ((RObj.init 0 (50 : ℚ) 1 60 2).add_function "Sersic").add_parameter "PA" 10 3
        Option.none = Option.none := by
  refine ⟨fun o name v e => ?_, by decide, by decide⟩
  simp only [RObj.add_parameter]
  rw [if_pos (Int.natCast_nonneg _), Int.toNat_natCast, listModifyO_length_none]
  rfl

/-- Witness instantiating `c4_model_center_expansion` on a Sersic model
with center `(50, 60)` and the default `dcent = 30`. -/
theorem c4_model_center_expansion_witness :
    Model.init ["Sersic"] [[]] [some (50, 60)] (.num 30) false = some c4model ∧
    c4comp.X0 = some ⟨"X0", 50, some 20, some 80, false, false⟩ ∧
    c4comp.Y0 = some ⟨"Y0", 60, some 30, some 90, false, false⟩ := by
  have hinit : Model.init ["Sersic"] [[]] [some (50, 60)] (.num 30) false = some c4model := by
    decide
  have h := (c4_model_center_expansion ["Sersic"] [[]] [some (50, 60)] (.num 30) c4model
    hinit 0 50 60 c4comp rfl rfl).1 30 rfl (by norm_num)
  refine ⟨hinit, ?_, ?_⟩
  · rw [h.1]; norm_num
  · rw [h.2]; norm_num

/-- One step of the `write_component` parameter loop: either the value
is `None` and the line is skipped, or a parameter line (followed by the
`FUNCTION` marker exactly when the parameter is `Y0`) is emitted in
front of the remaining output. -/
theorem writeCompLoop_step (function : String) (d : List (String × PyV)) (p : String)
    (ps : List String) (ls : List WLine)
    (h : writeCompLoop function d (p :: ps) = some ls) :
    ∃ rest, writeCompLoop function d ps = some rest ∧
      ((dictGet d p = some PyV.none ∧ ls = rest) ∨
       ((∃ v, dictGet d p = some v ∧ v ≠ PyV.none) ∧
        ∃ val lim, ls = emitP function p val lim rest)) := by
  rw [writeCompLoop] at h
  cases hv : dictGet d p with
  | none => rw [hv] at h; simp at h
  | some val =>
    rw [hv] at h
    simp only [Option.some_bind] at h
    cases val with
    | none =>
      exact ⟨ls, h, Or.inl ⟨rfl, rfl⟩⟩
    | num q =>
      obtain ⟨rest, hrest, hls⟩ := Option.map_eq_some'.mp h
      exact ⟨rest, hrest, Or.inr ⟨⟨_, rfl, by simp⟩, _, _, hls.symm⟩⟩
    | str s =>
      obtain ⟨rest, hrest, hls⟩ := Option.map_eq_some'.mp h
      exact ⟨rest, hrest, Or.inr ⟨⟨_, rfl, by simp⟩, _, _, hls.symm⟩⟩
    | list l =>
      rcases l with _ | ⟨a, _ | ⟨b, _ | ⟨c, _ | ⟨e, t⟩⟩⟩⟩
      · simp at h
      · obtain ⟨rest, hrest, hls⟩ := Option.map_eq_some'.mp h
        exact ⟨rest, hrest, Or.inr ⟨⟨_, rfl, by simp⟩, _, _, hls.symm⟩⟩
      · obtain ⟨rest, hrest, hls⟩ := Option.map_eq_some'.mp h
        exact ⟨rest, hrest, Or.inr ⟨⟨_, rfl, by simp⟩, _, _, hls.symm⟩⟩
      · obtain ⟨rest, hrest, hls⟩ := Option.map_eq_some'.mp h
        exact ⟨rest, hrest, Or.inr ⟨⟨_, rfl, by simp⟩, _, _, hls.symm⟩⟩
      · simp at h

/-- When `Y0` is not among the remaining parameter names, the loop
emits no `FUNCTION` marker. -/
theorem writeCompLoop_no_Y0 (function : String) (d : List (String × PyV)) :
    ∀ ps : List String, "Y0" ∉ ps → ∀ ls, writeCompLoop function d ps = some ls →
      countFunc ls = 0 := by
  intro ps
  induction ps with
  | nil =>
    intro _ ls h
    simp only [writeCompLoop, Option.some.injEq] at h
    subst h; rfl
  | cons p ps ih =>
    intro hmem ls h
    obtain ⟨rest, hrest, hcase⟩ := writeCompLoop_step _ _ _ _ _ h
    have hp : p ≠ "Y0" := fun e => hmem (e ▸ List.mem_cons_self p ps)
    have h0 := ih (fun hm => hmem (List.mem_cons_of_mem _ hm)) rest hrest
    rcases hcase with ⟨_, rfl⟩ | ⟨_, val, lim, rfl⟩
    · exact h0
    · rw [emitP, if_neg hp]
      simpa only [countFunc, List.countP_cons, WLine.isFunc, Bool.false_eq_true,
        if_false, Nat.add_zero] using h0

/-- A `Param.config_line` is never a `FUNCTION` marker line. -/
theorem config_line_not_func (p : Param) : p.config_line.isFunc = false := by
  rw [Param.config_line]
  split_ifs
  · rfl
  · cases p.vmin <;> cases p.vmax <;> rfl

/-- The per-parameter lines of `PymFitter.write_config` contain no
`FUNCTION` marker. -/
theorem configLines_no_func (params : List (String × Param)) :
    ∀ (pn : List String) (ls : List WLine),
      mapO (fun par => (dictGet params par).map Param.config_line) pn = some ls →
      countFunc ls = 0 := by
  intro pn
  induction pn with
  | nil =>
    intro ls h
    simp only [mapO, Option.some.injEq] at h
    subst h; rfl
  | cons par pn ih =>
    intro ls h
    simp only [mapO, Option.bind_eq_some, Option.map_eq_some',
      Option.some.injEq] at h
    obtain ⟨w, ⟨pm, hpm, hw⟩, rest, hrest, hls⟩ := h
    subst hls
    have hwf : w.isFunc = false := hw ▸ config_line_not_func pm
    simp only [countFunc, List.countP_cons, hwf, Bool.false_eq_true, if_false,
      Nat.add_zero]
    exact ih rest hrest

/-- `emitP` at `Y0`: the `FUNCTION` marker follows the line. -/
theorem emitP_Y0 (f : String) (val : PyV) (lim : WLimit) (rest : List WLine) :
    emitP f "Y0" val lim rest = WLine.pline "Y0" val lim :: WLine.funcLine f :: rest := by
  rw [emitP, if_pos rfl]

/-- `emitP` at a non-`Y0` parameter: no marker. -/
theorem emitP_ne_Y0 (f p : String) (hp : p ≠ "Y0") (val : PyV) (lim : WLimit)
    (rest : List WLine) : emitP f p val lim rest = WLine.pline p val lim :: rest := by
  rw [emitP, if_neg hp]

/-- A parameter line does not count as a marker. -/
theorem countFunc_cons_pline (p : String) (val : PyV) (lim : WLimit) (ls : List WLine) :
    countFunc (WLine.pline p val lim :: ls) = countFunc ls := by
  simp [countFunc, List.countP_cons, WLine.isFunc]

/-- A marker line counts once. -/
theorem countFunc_cons_func (f : String) (ls : List WLine) :
    countFunc (WLine.funcLine f :: ls) = countFunc ls + 1 := by
  simp [countFunc, List.countP_cons, WLine.isFunc]

/-- A blank line does not count as a marker. -/
theorem countFunc_cons_blank (ls : List WLine) :
    countFunc (WLine.blank :: ls) = countFunc ls := by
  simp [countFunc, List.countP_cons, WLine.isFunc]

/-- Any non-marker line leaves the marker count unchanged. -/
theorem countFunc_cons_notFunc (w : WLine) (h : w.isFunc = false) (ls : List WLine) :
    countFunc (w :: ls) = countFunc ls := by
  simp [countFunc, List.countP_cons, h]

/-- Claim C6 is false as stated: `core.write_component` prints the
`FUNCTION` marker only right after a non-null `Y0` line, so a
single-object serialization with no center (both center entries `None`)
emits the marker zero times, not once. -/
theorem c6_counterexample :
    (write_component "Sersic" c6dict).map countFunc = some 0 ∧ (0 : ℕ) ≠ 1 :=
  ⟨by decide, by decide⟩

/-- Claim C6 (amended): when a center is present (a non-null `Y0`
entry), `core.write_component` emits the `FUNCTION <form_name>` marker
exactly once, immediately after the `Y0` line; when the `Y0` entry is
null it emits no marker at all.  `PymFitter.write_config` emits the
marker exactly once per component: immediately after the `Y0` line when
the component has a center, and before the first parameter line when it
has none. -/
theorem c6_function_marker :
    (∀ (f : String) (d : List (String × PyV)) (ls : List WLine) (yv : PyV),
        write_component f d = some ls → dictGet d "Y0" = some yv → yv ≠ PyV.none →
        countFunc ls = 1 ∧
        ∃ pre val lim post,
          ls = pre ++ WLine.pline "Y0" val lim :: WLine.funcLine f :: post ∧
          countFunc pre = 0 ∧ countFunc post = 0) ∧
    (∀ (f : String) (d : List (String × PyV)) (ls : List WLine),
        write_component f d = some ls → dictGet d "Y0" = some PyV.none →
        countFunc ls = 0) ∧
    (∀ (c : MComp) (ls : List WLine), pymWriteComp c = some ls →
        countFunc ls = 1 ∧
        (c.X0 = Option.none →
          ∃ post, ls = WLine.funcLine c.name :: post ∧ countFunc post = 0) ∧
        (∀ px py, c.X0 = some px → c.Y0 = some py →
          ∃ post, ls = WLine.blank :: px.config_line :: py.config_line ::
              WLine.funcLine c.name :: post ∧ countFunc post = 0)) := by
  refine ⟨?_, ?_, ?_⟩
  · intro f d ls yv hw hy hyne
    simp only [write_component, SERSIC_PARAMS] at hw
    obtain ⟨r1, hr1, hcase1⟩ := writeCompLoop_step f d "X0" _ _ hw
    obtain ⟨r2, hr2, hcase2⟩ := writeCompLoop_step f d "Y0" _ _ hr1
    have hno : countFunc r2 = 0 :=
      writeCompLoop_no_Y0 f d ["PA", "ell", "n", "I_e", "r_e"] (by decide) r2 hr2
    rcases hcase2 with ⟨hnone, rfl⟩ | ⟨⟨v, hv, hvne⟩, val, lim, rfl⟩
    · rw [hy] at hnone
      injection hnone with hnone
      exact absurd hnone hyne
    · rcases hcase1 with ⟨hx0, rfl⟩ | ⟨_, val0, lim0, rfl⟩
      · rw [emitP_Y0]
        refine ⟨?_, [], val, lim, r2, rfl, rfl, hno⟩
        rw [countFunc_cons_pline, countFunc_cons_func, hno]
      · rw [emitP_Y0, emitP_ne_Y0 f "X0" (by decide)]
        refine ⟨?_, [WLine.pline "X0" val0 lim0], val, lim, r2, rfl, ?_, hno⟩
        · rw [countFunc_cons_pline, countFunc_cons_pline, countFunc_cons_func, hno]
        · rw [countFunc_cons_pline]; rfl
  · intro f d ls hw hy
    simp only [write_component, SERSIC_PARAMS] at hw
    obtain ⟨r1, hr1, hcase1⟩ := writeCompLoop_step f d "X0" _ _ hw
    obtain ⟨r2, hr2, hcase2⟩ := writeCompLoop_step f d "Y0" _ _ hr1
    have hno : countFunc r2 = 0 :=
      writeCompLoop_no_Y0 f d ["PA", "ell", "n", "I_e", "r_e"] (by decide) r2 hr2
    rcases hcase2 with ⟨hnone, rfl⟩ | ⟨⟨v, hv, hvne⟩, val, lim, rfl⟩
    · rcases hcase1 with ⟨hx0, rfl⟩ | ⟨_, val0, lim0, rfl⟩
      · exact hno
      · rw [emitP_ne_Y0 f "X0" (by decide), countFunc_cons_pline]
        exact hno
    · rw [hy] at hv
      injection hv with hv
      exact absurd hv.symm hvne
  · intro c ls h
    simp only [pymWriteComp, bind, Option.bind_eq_some, Option.pure_def,
      Option.some.injEq] at h
    obtain ⟨head, hhead, plines, hplines, hls⟩ := h
    subst hls
    have h0 := configLines_no_func c.params c.param_names plines hplines
    cases hcx : c.X0 with
    | none =>
      simp only [pymHead, hcx, Option.some.injEq] at hhead
      subst hhead
      refine ⟨?_, fun _ => ⟨plines, rfl, h0⟩, fun px py hpx _ => Option.noConfusion hpx⟩
      simp only [List.nil_append, countFunc_cons_func, h0]
    | some px =>
      cases hcy : c.Y0 with
      | none =>
        simp only [pymHead, hcx, hcy] at hhead
        exact Option.noConfusion hhead
      | some py =>
        simp only [pymHead, hcx, hcy, Option.some.injEq] at hhead
        subst hhead
        refine ⟨?_, fun hx => Option.noConfusion hx, fun px' py' hpx' hpy' => ?_⟩
        · show countFunc (WLine.blank :: px.config_line :: py.config_line ::
            WLine.funcLine c.name :: plines) = 1
          rw [countFunc_cons_blank, countFunc_cons_notFunc _ (config_line_not_func px),
            countFunc_cons_notFunc _ (config_line_not_func py), countFunc_cons_func, h0]
        · injection hpx' with hpx'
          injection hpy' with hpy'
          subst hpx'; subst hpy'
          exact ⟨plines, rfl, h0⟩

/-- Witness instantiating `c6_function_marker` on a Sersic dict with a
center: exactly one marker is emitted. -/
theorem c6_function_marker_witness :
    ∃ ls, write_component "Sersic" c6dictY = some ls ∧ countFunc ls = 1 := by
  cases hls : write_component "Sersic" c6dictY with
  | none => exact absurd hls (by decide)
  | some ls =>
    exact ⟨ls, rfl, (c6_function_marker.1 "Sersic" c6dictY ls
      (.list [.num 308, .num 280, .num 340]) hls (by decide) (by decide)).1⟩

/-- Claim C10 is false as stated: serializing a config tree nulls every
component's `X0`/`Y0` dict entries in place.  For a tree whose single
component carries a caller-supplied `X0 = 5`, the write succeeds and
afterwards the component's `X0` entry is `None`, not `5`. -/
theorem c10_counterexample :
    (write_multicomponentconfig c10tree).map
        (fun r => r.2.objs.map fun o => o.comps.map fun c => dictGet c.2 "X0") =
      some [[some PyV.none]] ∧
    (c10tree.objs.map fun o => o.comps.map fun c => dictGet c.2 "X0") =
      [[some (PyV.num 5)]] ∧ (PyV.none ≠ PyV.num 5) := by
  exact ⟨by decide, by decide, by decide⟩

/-- Claim C10 (amended): a successful serialization of a Multi-Object
Config Tree preserves every object's position, number, component count
and order, and every component's parameter mapping at every key other
than `X0` and `Y0`; the write sets each component's `X0` and `Y0`
entries to `None` (the source nulls them in place so they are not
re-emitted per component). -/
theorem c10_write_frame :
    ∀ (m : MCModel) (ls : List WLine) (m' : MCModel),
      write_multicomponentconfig m = some (ls, m') →
      m'.objs.length = m.objs.length ∧
      ∀ (i : ℕ) o o', m.objs[i]? = some o → m'.objs[i]? = some o' →
        o'.object_number = o.object_number ∧ o'.posX = o.posX ∧ o'.posY = o.posY ∧
        o'.comps.length = o.comps.length ∧
        ∀ (j : ℕ) c c', o.comps[j]? = some c → o'.comps[j]? = some c' →
          c'.1 = c.1 ∧
          (∀ k : String, k ≠ "X0" → k ≠ "Y0" → dictGet c'.2 k = dictGet c.2 k) ∧
          dictGet c'.2 "X0" = some PyV.none ∧ dictGet c'.2 "Y0" = some PyV.none := by
  intro m ls m' h
  simp only [write_multicomponentconfig, Option.map_eq_some'] at h
  obtain ⟨⟨l2, objs2⟩, hloop, heq⟩ := h
  obtain ⟨hls, hm⟩ := Prod.mk.injEq .. ▸ heq
  subst hm
  obtain ⟨hlen, hspec⟩ := writeMCCLoop_spec m.objs l2 objs2 hloop
  refine ⟨hlen, fun i o o' hi hi' => ?_⟩
  obtain ⟨hn, hx, hy, hclen, hcs⟩ := hspec i o o' hi hi'
  refine ⟨hn, hx, hy, hclen, fun j c c' hj hj' => ?_⟩
  obtain ⟨hfn, hd⟩ := hcs j c c' hj hj'
  refine ⟨hfn, fun k hkx hky => ?_, ?_, ?_⟩
  · rw [hd, dictGet_dictSet_ne _ _ _ _ hky, dictGet_dictSet_ne _ _ _ _ hkx]
  · rw [hd, dictGet_dictSet_ne _ _ _ _ (by decide), dictGet_dictSet_self]
  · rw [hd, dictGet_dictSet_self]

/-- Witness instantiating `c10_write_frame` on the one-object,
one-Sersic-component tree `c10tree`. -/
theorem c10_write_frame_witness :
    ∃ ls m', write_multicomponentconfig c10tree = some (ls, m') ∧
      ∃ o o' c c', c10tree.objs[0]? = some o ∧ m'.objs[0]? = some o' ∧
        o.comps[0]? = some c ∧ o'.comps[0]? = some c' ∧
        dictGet c'.2 "PA" = dictGet c.2 "PA" ∧
        dictGet c'.2 "X0" = some PyV.none := by
  cases hw : write_multicomponentconfig c10tree with
  | none => exact absurd hw (by decide)
  | some r =>
    obtain ⟨ls, m'⟩ := r
    have h := c10_write_frame c10tree ls m' hw
    cases ho : c10tree.objs[0]? with
    | none => exact absurd ho (by decide)
    | some o =>
      cases ho' : m'.objs[0]? with
      | none =>
        have : m'.objs.length = 1 := by rw [h.1]; decide
        rw [List.getElem?_eq_none_iff] at ho'
        omega
      | some o' =>
        have hobj := h.2 0 o o' ho ho'
        cases hc : o.comps[0]? with
        | none =>
          have hol : o.comps.length = 1 := by
            have : c10tree.objs[0]? = some o := ho
            simp only [c10tree, List.getElem?_cons_zero, Option.some.injEq] at this
            rw [← this]; decide
          rw [List.getElem?_eq_none_iff] at hc
          omega
        | some c =>
          cases hc' : o'.comps[0]? with
          | none =>
            have : o'.comps.length = o.comps.length := hobj.2.2.2.1
            have hol : o.comps.length = 1 := by
              have h2 : c10tree.objs[0]? = some o := ho
              simp only [c10tree, List.getElem?_cons_zero, Option.some.injEq] at h2
              rw [← h2]; decide
            rw [List.getElem?_eq_none_iff] at hc'
            omega
          | some c' =>
            have hcomp := hobj.2.2.2.2 0 c c' hc hc'
            exact ⟨ls, m', rfl, o, o', c, c', rfl, ho', hc, hc',
              hcomp.2.1 "PA" (by decide) (by decide), hcomp.2.2.1⟩

/-- Claim C3: the multi-component result walk.  (1) A non-blank,
non-comment line containing `X0`, followed by a line parsed as the `Y0`
line and then a `FUNCTION` line, opens a new object (appended after the
existing ones) holding exactly one component named by the `FUNCTION`
line, with the object's `X0`/`Y0` values from the two lines.  (2) A
later `FUNCTION` line not consumed as part of such a triple opens one
additional component at the end of the most recently opened object.
(3) Any other non-blank, non-comment line attaches its `(name, value)`
and `(name + '_err', error)` entries to the most recently opened
component of the most recently opened object. -/
theorem c3_multicomponent_walk :
    (∀ (st : MCRes (List Char)) (l l2 l3 : List Char) (rest : List (List Char))
       (n1 x0 x0e n2 y0 y0e fn : List Char),
        pySplit l ≠ [] → l.headD ' ' ≠ '#' → listContains ("X0".toList) l = true →
        parseLine l = some (n1, x0, x0e) → parseLine l2 = some (n2, y0, y0e) →
        funcNameOf l3 = some fn →
        ∃ ob : RObj (List Char),
          mcrLoop st (l :: l2 :: l3 :: rest) =
            mcrLoop { st with objs := st.objs ++ [ob] } rest ∧
          ob.X0 = x0 ∧ ob.Y0 = y0 ∧
          ∃ c : RComp (List Char), ob.comps = [c] ∧ c.funcname = String.mk fn) ∧
    (∀ (st : MCRes (List Char)) (l : List Char) (rest : List (List Char))
       (fn : List Char) (objs0 : List (RObj (List Char))) (ob : RObj (List Char)),
        pySplit l ≠ [] → l.headD ' ' ≠ '#' → listContains ("X0".toList) l = false →
        ("FUNCTION ".toList.isPrefixOf l) = true → funcNameOf l = some fn →
        st.objs = objs0 ++ [ob] →
        ∃ c : RComp (List Char),
          mcrLoop st (l :: rest) =
            mcrLoop { st with objs := objs0 ++ [{ ob with comps := ob.comps ++ [c] }] } rest ∧
          c.funcname = String.mk fn) ∧
    (∀ (st : MCRes (List Char)) (l : List Char) (rest : List (List Char))
       (n v e : List Char) (objs0 : List (RObj (List Char))) (ob : RObj (List Char))
       (comps0 : List (RComp (List Char))) (c : RComp (List Char)),
        pySplit l ≠ [] → l.headD ' ' ≠ '#' → listContains ("X0".toList) l = false →
        ("FUNCTION ".toList.isPrefixOf l) = false → parseLine l = some (n, v, e) →
        st.objs = objs0 ++ [ob] → ob.comps = comps0 ++ [c] →
        mcrLoop st (l :: rest) =
          mcrLoop { st with objs := objs0 ++ [{ ob with comps := comps0 ++
            [{ c with params := dictSet (dictSet c.params (String.mk n) v) (String.mk n ++ "_err") e }] }] }
            rest) := by
  refine ⟨?_, ?_, ?_⟩
  · intro st l l2 l3 rest n1 x0 x0e n2 y0 y0e fn h1 h2 h3 hp1 hp2 hfn
    refine ⟨(RObj.init st.objs.length x0 x0 y0 y0).add_function (String.mk fn),
      ?_, rfl, rfl, ⟨_, rfl, rfl⟩⟩
    conv_lhs => rw [mcrLoop]
    rw [if_neg h1, if_neg h2, if_pos h3]
    rw [hp1]
    simp only [Option.some_bind]
    rw [hp2]
    simp only [Option.some_bind]
    rw [hfn]
    simp only [Option.some_bind]
    rw [MCRes.add_function_last (st.add_object x0 x0e y0 y0e) st.objs
      (RObj.init st.objs.length x0 x0e y0 y0e) (String.mk fn) rfl]
    simp only [Option.some_bind]
    rfl
  · intro st l rest fn objs0 ob h1 h2 h3 h4 hfn hobjs
    refine ⟨⟨String.mk fn,
      [("X0", ob.X0), ("X0_err", ob.X0_err), ("Y0", ob.Y0), ("Y0_err", ob.Y0_err)]⟩,
      ?_, rfl⟩
    have hx : ¬ (listContains ("X0".toList) l = true) := by rw [h3]; simp
    have key : ∀ r : List (List Char), mcrLoop st (l :: r) =
        (funcNameOf l).bind fun fn2 =>
        (st.add_function ((st.objs.length : ℤ) - 1) (String.mk fn2)).bind fun st1 =>
        mcrLoop st1 r := by
      intro r
      rcases r with _ | ⟨r1, _ | ⟨r2, r3⟩⟩
      · rw [mcrLoop]
        · rw [if_neg h1, if_neg h2, if_neg hx, if_pos h4]
        · intro l2 l3 rest2 hh; exact List.noConfusion hh
      · rw [mcrLoop]
        · rw [if_neg h1, if_neg h2, if_neg hx, if_pos h4]
        · intro l2 l3 rest2 hh
          exact List.noConfusion (List.cons.inj hh).2
      · rw [mcrLoop, if_neg h1, if_neg h2, if_neg hx, if_pos h4]
    rw [key, hfn]
    simp only [Option.some_bind]
    rw [MCRes.add_function_last st objs0 ob (String.mk fn) hobjs]
    simp only [Option.some_bind]
    rfl
  · intro st l rest n v e objs0 ob comps0 c h1 h2 h3 h4 hp hobjs hcomps
    have hx : ¬ (listContains ("X0".toList) l = true) := by rw [h3]; simp
    have hf : ¬ (("FUNCTION ".toList.isPrefixOf l) = true) := by rw [h4]; simp
    have key : ∀ r : List (List Char), mcrLoop st (l :: r) =
        (parseLine l).bind fun pl =>
        (st.objs.getLast?.map (fun ob2 => ob2.comps.length)).bind fun nc =>
        (st.add_parameter ((st.objs.length : ℤ) - 1) (some ((nc : ℤ) - 1))
          (String.mk pl.1) pl.2.1 pl.2.2).bind fun st1 =>
        mcrLoop st1 r := by
      intro r
      rcases r with _ | ⟨r1, _ | ⟨r2, r3⟩⟩
      · rw [mcrLoop]
        · rw [if_neg h1, if_neg h2, if_neg hx, if_neg hf]
        · intro l2 l3 rest2 hh; exact List.noConfusion hh
      · rw [mcrLoop]
        · rw [if_neg h1, if_neg h2, if_neg hx, if_neg hf]
        · intro l2 l3 rest2 hh
          exact List.noConfusion (List.cons.inj hh).2
      · rw [mcrLoop, if_neg h1, if_neg h2, if_neg hx, if_neg hf]
    rw [key, hp]
    simp only [Option.some_bind]
    rw [hobjs, List.getLast?_concat]
    simp only [Option.map_some', Option.some_bind]
    rw [← hobjs]
    rw [MCRes.add_parameter_last st objs0 ob hobjs comps0 c hcomps (String.mk n) v e]
    simp only [Option.some_bind]

/-- Witness instantiating `c3_multicomponent_walk` on a concrete
five-token line stream: one object with one Sersic component is
opened, a second component is added by a bare `FUNCTION` line, and a
parameter line lands in that second component. -/
theorem c3_multicomponent_walk_witness :
    (∃ ob : RObj (List Char),
      mcrLoop (MCRes.empty (List Char))
          ["X0 5 a b 1\n".toList, "Y0 6 a b 2\n".toList, "FUNCTION Sersic\n".toList] =
        mcrLoop { MCRes.empty (List Char) with objs := [] ++ [ob] } [] ∧
      ob.X0 = "5".toList ∧ ob.Y0 = "6".toList ∧
      ∃ c, ob.comps = [c] ∧ c.funcname = String.mk "Sersic".toList) ∧
    (∃ c : RComp (List Char),
      mcrLoop ⟨Option.none, [RObj.init 0 "5".toList "1".toList "6".toList "2".toList]⟩
          ["FUNCTION Exponential\n".toList] =
        mcrLoop ⟨Option.none,
          [] ++ [{ RObj.init 0 "5".toList "1".toList "6".toList "2".toList with
            comps := (RObj.init 0 "5".toList "1".toList "6".toList "2".toList).comps ++
              [c] }]⟩ [] ∧
      c.funcname = String.mk "Exponential".toList) := by
  constructor
  · exact c3_multicomponent_walk.1 (MCRes.empty (List Char))
      "X0 5 a b 1\n".toList "Y0 6 a b 2\n".toList "FUNCTION Sersic\n".toList []
      "X0".toList "5".toList "1".toList "Y0".toList "6".toList "2".toList
      "Sersic".toList (by decide) (by decide) (by decide) (by decide) (by decide)
      (by decide)
  · exact c3_multicomponent_walk.2.1
      ⟨Option.none, [RObj.init 0 "5".toList "1".toList "6".toList "2".toList]⟩
      "FUNCTION Exponential\n".toList [] "Exponential".toList []
      (RObj.init 0 "5".toList "1".toList "6".toList "2".toList)
      (by decide) (by decide) (by decide) (by decide) (by decide) rfl

/-!
## Lemmas about tokenization of generated lines
-/

/-- `pySplitAux` skips a leading whitespace character when the
accumulator is empty. -/
theorem pySplitAux_ws (c : Char) (h : isWS c = true) (l : List Char) :
    pySplitAux (c :: l) [] = pySplitAux l [] := by
  simp [pySplitAux, h]

/-- `pySplitAux` collects a whitespace-free word up to a whitespace
character. -/
theorem pySplitAux_word :
    ∀ (w : List Char), (∀ d ∈ w, isWS d = false) →
      ∀ (c : Char), isWS c = true → ∀ (r acc : List Char), (acc ≠ [] ∨ w ≠ []) →
        pySplitAux (w ++ c :: r) acc = (acc.reverse ++ w) :: pySplitAux r [] := by
  intro w
  induction w with
  | nil =>
    intro _ c hc r acc hne
    rcases hne with h | h
    · simp [pySplitAux, hc, h]
    · simp at h
  | cons a t ih =>
    intro hfree c hc r acc _
    have ha : isWS a = false := hfree a (by simp)
    have ht : ∀ d ∈ t, isWS d = false := fun d hd => hfree d (by simp [hd])
    rw [List.cons_append]
    show pySplitAux (a :: (t ++ c :: r)) acc = _
    simp only [pySplitAux, ha, Bool.false_eq_true, if_false]
    rw [ih ht c hc r (a :: acc) (Or.inl (by simp))]
    simp

/-- One step of `mkLine`. -/
theorem mkLine_cons (w : List Char) (ws : List (List Char)) :
    mkLine (w :: ws) = w ++ ' ' :: mkLine ws := rfl

/-- Splitting a generated line recovers exactly its words. -/
theorem pySplit_mkLine :
    ∀ ws : List (List Char), (∀ w ∈ ws, goodTok w) → pySplit (mkLine ws) = ws := by
  intro ws
  induction ws with
  | nil => intro _; rfl
  | cons w t ih =>
    intro h
    have hw := h w (by simp)
    show pySplitAux (mkLine (w :: t)) [] = w :: t
    rw [mkLine_cons]
    rw [pySplitAux_word w hw.2 ' ' (by decide) (mkLine t) [] (Or.inr hw.1)]
    have := ih (fun w2 hw2 => h w2 (by simp [hw2]))
    simp only [pySplit] at this
    rw [this]
    simp

/-- Digit tokens are good words. -/
theorem goodTok_of_digit (t : List Char) (h : isDigitTok t = true) : goodTok t := by
  simp only [isDigitTok, Bool.and_eq_true, List.all_eq_true] at h
  refine ⟨by simpa using h.1, fun c hc => ?_⟩
  have hd := h.2 c hc
  cases hws : isWS c
  · rfl
  · exfalso
    simp only [isWS, Bool.or_eq_true, decide_eq_true_eq] at hws
    rcases hws with (rfl | rfl) | rfl <;> exact absurd hd (by decide)

/-- The words of a good parameter name are good. -/
theorem goodTok_of_pname (p : String) (hp : goodPName p = true) : goodTok p.toList := by
  simp only [goodPName, Bool.and_eq_true, List.all_eq_true] at hp
  exact ⟨by simpa using hp.1.1.1.1.1.1.1, fun c hc => by simpa using hp.1.1.1.1.1.1.2 c hc⟩

/-- The five words of a generated parameter line are good. -/
theorem pySplit_paramLineOf (p : String) (hp : goodPName p = true)
    (pv : List Char × List Char) (h1 : isDigitTok pv.1 = true) (h2 : isDigitTok pv.2 = true) :
    pySplit (paramLineOf p pv) = [p.toList, pv.1, hashTok, pmTok, pv.2] := by
  apply pySplit_mkLine
  intro w hw
  simp only [List.mem_cons, List.not_mem_nil, or_false] at hw
  rcases hw with rfl | rfl | rfl | rfl | rfl
  · exact goodTok_of_pname p hp
  · exact goodTok_of_digit _ h1
  · exact ⟨by decide, by decide⟩
  · exact ⟨by decide, by decide⟩
  · exact goodTok_of_digit _ h2

/-!
## Lemmas about the `read_results` filters on generated lines
-/

/-- A generated `X0` center line fails the `params` filter. -/
theorem prmFilter_cen_x (xv xe : List Char) :
    prmFilter (mkLine [['X', '0'], xv, hashTok, pmTok, xe]) = false := rfl

/-- A generated `Y0` center line fails the `params` filter. -/
theorem prmFilter_cen_y (yv ye : List Char) :
    prmFilter (mkLine [['Y', '0'], yv, hashTok, pmTok, ye]) = false := rfl

/-- A generated `X0` center line passes the `cen_text` filter. -/
theorem cenFilter_cen_x (xv xe : List Char) :
    cenFilter (mkLine [['X', '0'], xv, hashTok, pmTok, xe]) = true := rfl

/-- A generated `Y0` center line passes the `cen_text` filter. -/
theorem cenFilter_cen_y (yv ye : List Char) :
    cenFilter (mkLine [['Y', '0'], yv, hashTok, pmTok, ye]) = true := rfl

/-- A generated `FUNCTION` line fails the `params` filter. -/
theorem prmFilter_funcLine (name : List Char) :
    prmFilter (mkLine [['F', 'U', 'N', 'C', 'T', 'I', 'O', 'N'], name]) = false := rfl

/-- A generated `FUNCTION` line fails the `cen_text` filter. -/
theorem cenFilter_funcLine (name : List Char) :
    cenFilter (mkLine [['F', 'U', 'N', 'C', 'T', 'I', 'O', 'N'], name]) = false := rfl

/-- The character-level facts packed in `goodPName`. -/
theorem goodPName_facts (p : String) (hp : goodPName p = true) :
    p.toList ≠ [] ∧ p.toList.headD ' ' ≠ '#' ∧ p.toList.headD ' ' ≠ 'F' ∧
    p.toList.take 2 ≠ "X0".toList ∧ p.toList.take 2 ≠ "Y0".toList ∧
    ("_err".toList.isSuffixOf p.toList) = false ∧ p ≠ "function" := by
  simp only [goodPName, Bool.and_eq_true, Bool.not_eq_true', decide_eq_false_iff_not,
    List.all_eq_true] at hp
  obtain ⟨⟨⟨⟨⟨⟨⟨hne, _⟩, hhash⟩, hF⟩, hX0⟩, hY0⟩, herr⟩, hfn⟩ := hp
  refine ⟨?_, hhash, hF, hX0, hY0, herr, fun h => hfn (by rw [h])⟩
  intro h
  rw [h] at hne
  exact absurd hne (by decide)

/-- A generated parameter line passes the `params` filter. -/
theorem prmFilter_param (p : String) (hp : goodPName p = true)
    (pv : List Char × List Char) : prmFilter (paramLineOf p pv) = true := by
  obtain ⟨hne, hhash, hF, hX0, hY0, _, _⟩ := goodPName_facts p hp
  show prmFilter (mkLine (p.toList :: _)) = true
  rw [mkLine_cons]
  rcases hl : p.toList with _ | ⟨c1, _ | ⟨c2, t⟩⟩
  · exact absurd hl hne
  · rw [hl] at hhash hF
    simp only [List.headD_cons] at hhash hF
    simp [prmFilter, hhash, hF]
  · rw [hl] at hhash hF hX0 hY0
    simp only [List.headD_cons, List.take_succ_cons, List.take_zero] at hhash hF hX0 hY0
    simp [prmFilter, List.take_succ_cons, hhash, hF]
    constructor
    · exact not_and_or.mp fun hand => hX0 (by rw [hand.1, hand.2]; rfl)
    · exact not_and_or.mp fun hand => hY0 (by rw [hand.1, hand.2]; rfl)

/-- A generated parameter line fails the `cen_text` filter. -/
theorem cenFilter_param (p : String) (hp : goodPName p = true)
    (pv : List Char × List Char) : cenFilter (paramLineOf p pv) = false := by
  obtain ⟨hne, hhash, _, hX0, hY0, _, _⟩ := goodPName_facts p hp
  show cenFilter (mkLine (p.toList :: _)) = false
  rw [mkLine_cons]
  rcases hl : p.toList with _ | ⟨c1, _ | ⟨c2, t⟩⟩
  · exact absurd hl hne
  · simp [cenFilter]
  · rw [hl] at hX0 hY0
    simp only [List.take_succ_cons, List.take_zero] at hX0 hY0
    simp [cenFilter, List.take_succ_cons]
    intro _
    constructor
    · intro e1 e2
      exact hX0 (by rw [e1, e2]; rfl)
    · intro e1 e2
      exact hY0 (by rw [e1, e2]; rfl)

/-- The two filters on a block of generated parameter lines: the
`params` filter keeps all of them, the `cen_text` filter none. -/
theorem filters_param_block :
    ∀ (ps : List String) (pvs : List (List Char × List Char)),
      (∀ p ∈ ps, goodPName p = true) →
      (List.zipWith paramLineOf ps pvs).filter prmFilter =
        List.zipWith paramLineOf ps pvs ∧
      (List.zipWith paramLineOf ps pvs).filter cenFilter = [] := by
  intro ps
  induction ps with
  | nil => intro pvs _; simp
  | cons p pt ih =>
    intro pvs h
    cases pvs with
    | nil => simp
    | cons pv pvt =>
      have hp := h p (by simp)
      obtain ⟨ih1, ih2⟩ := ih pvt (fun q hq => h q (by simp [hq]))
      simp [List.filter_cons, prmFilter_param p hp pv, cenFilter_param p hp pv, ih1, ih2]

/-- The `params` filter on one generated component block keeps exactly
the parameter lines. -/
theorem filter_prm_comp (g : GComp) (hwf : GComp.wf g) :
    (genCompLines g).filter prmFilter = genParamLines g := by
  obtain ⟨_, _, _, hpn, _, _⟩ := hwf
  unfold genCompLines
  rw [List.filter_append, List.filter_append]
  have hblock := (filters_param_block g.comp.param_names g.pvals hpn).1
  cases hctr : g.center with
  | none =>
      simp [genCenLines, hctr, List.filter_cons, prmFilter_funcLine, genParamLines, hblock]
  | some pr =>
      obtain ⟨⟨xv, xe⟩, yv, ye⟩ := pr
      simp [genCenLines, hctr, List.filter_cons, prmFilter_cen_x, prmFilter_cen_y,
        prmFilter_funcLine, genParamLines, hblock]

/-- The `cen_text` filter on one generated component block keeps
exactly the center lines. -/
theorem filter_cen_comp (g : GComp) (hwf : GComp.wf g) :
    (genCompLines g).filter cenFilter = genCenLines g := by
  obtain ⟨_, _, _, hpn, _, _⟩ := hwf
  unfold genCompLines
  rw [List.filter_append, List.filter_append]
  have hblock := (filters_param_block g.comp.param_names g.pvals hpn).2
  cases hctr : g.center with
  | none =>
      simp [genCenLines, hctr, List.filter_cons, cenFilter_funcLine, genParamLines, hblock]
  | some pr =>
      obtain ⟨⟨xv, xe⟩, yv, ye⟩ := pr
      simp [genCenLines, hctr, List.filter_cons, cenFilter_cen_x, cenFilter_cen_y,
        cenFilter_funcLine, genParamLines, hblock]

/-- The `params` filter on the whole generated text yields the
concatenated parameter blocks. -/
theorem filter_prm_gen :
    ∀ gs : List GComp, (∀ g ∈ gs, GComp.wf g) →
      (genResultLines gs).filter prmFilter = (gs.map genParamLines).flatten := by
  intro gs
  induction gs with
  | nil => intro _; rfl
  | cons g gt ih =>
    intro h
    simp only [genResultLines, List.map_cons, List.flatten_cons, List.filter_append]
    rw [filter_prm_comp g (h g (by simp))]
    have := ih (fun g2 hg2 => h g2 (by simp [hg2]))
    simp only [genResultLines] at this
    rw [this]

/-- The `cen_text` filter on the whole generated text yields the
concatenated center-line blocks. -/
theorem filter_cen_gen :
    ∀ gs : List GComp, (∀ g ∈ gs, GComp.wf g) →
      (genResultLines gs).filter cenFilter = (gs.map genCenLines).flatten := by
  intro gs
  induction gs with
  | nil => intro _; rfl
  | cons g gt ih =>
    intro h
    simp only [genResultLines, List.map_cons, List.flatten_cons, List.filter_append]
    rw [filter_cen_comp g (h g (by simp))]
    have := ih (fun g2 hg2 => h g2 (by simp [hg2]))
    simp only [genResultLines] at this
    rw [this]

/-- When every component has a center, the collected center text has
two lines per component. -/
theorem cen_text_length (gs : List GComp) (hcen : ∀ g ∈ gs, g.center.isSome = true) :
    ((gs.map genCenLines).flatten).length = 2 * gs.length := by
  induction gs with
  | nil => rfl
  | cons g gt ih =>
    have hg := hcen g (by simp)
    have h2 : (genCenLines g).length = 2 := by
      cases hctr : g.center with
      | none => rw [hctr] at hg; simp at hg
      | some pr => obtain ⟨⟨xv, xe⟩, yv, ye⟩ := pr; simp [genCenLines, hctr]
    simp only [List.map_cons, List.flatten_cons, List.length_append, h2,
      List.length_cons, ih (fun g2 hg2 => hcen g2 (by simp [hg2]))]
    ring

/-- Every line of the collected center text splits into exactly five
tokens. -/
theorem cen_text_five_tokens (gs : List GComp) (hwf : ∀ g ∈ gs, GComp.wf g)
    (hcen : ∀ g ∈ gs, g.center.isSome = true) :
    ∀ l ∈ (gs.map genCenLines).flatten, ∃ a b c d e, pySplit l = [a, b, c, d, e] := by
  intro l hl
  rw [List.mem_flatten] at hl
  obtain ⟨blk, hblk, hlblk⟩ := hl
  rw [List.mem_map] at hblk
  obtain ⟨g, hg, rfl⟩ := hblk
  obtain ⟨_, _, _, _, _, hctr⟩ := hwf g hg
  have hsome := hcen g hg
  cases hc : g.center with
  | none => rw [hc] at hsome; simp at hsome
  | some pr =>
    obtain ⟨⟨xv, xe⟩, yv, ye⟩ := pr
    rw [hc] at hctr
    simp only at hctr
    obtain ⟨hx1, hx2, hy1, hy2⟩ := hctr
    simp only [genCenLines, hc, List.mem_cons, List.not_mem_nil, or_false] at hlblk
    rcases hlblk with rfl | rfl
    · refine ⟨_, _, _, _, _, pySplit_mkLine _ ?_⟩
      intro w hw
      simp only [List.mem_cons, List.not_mem_nil, or_false] at hw
      rcases hw with rfl | rfl | rfl | rfl | rfl
      · exact ⟨by decide, by decide⟩
      · exact goodTok_of_digit _ hx1
      · exact ⟨by decide, by decide⟩
      · exact ⟨by decide, by decide⟩
      · exact goodTok_of_digit _ hx2
    · refine ⟨_, _, _, _, _, pySplit_mkLine _ ?_⟩
      intro w hw
      simp only [List.mem_cons, List.not_mem_nil, or_false] at hw
      rcases hw with rfl | rfl | rfl | rfl | rfl
      · exact ⟨by decide, by decide⟩
      · exact goodTok_of_digit _ hy1
      · exact ⟨by decide, by decide⟩
      · exact ⟨by decide, by decide⟩
      · exact goodTok_of_digit _ hy2

/-- A `mapO` over inputs on which `f` succeeds yields a list of the
same length. -/
theorem mapO_some_of_forall {α β : Type} (f : α → Option β) :
    ∀ l : List α, (∀ a ∈ l, (f a).isSome = true) →
      ∃ r, mapO f l = some r ∧ r.length = l.length := by
  intro l
  induction l with
  | nil => intro _; exact ⟨[], rfl, rfl⟩
  | cons a t ih =>
    intro h
    obtain ⟨b, hb⟩ := Option.isSome_iff_exists.mp (h a (by simp))
    obtain ⟨r, hr, hlen⟩ := ih (fun x hx => h x (by simp [hx]))
    exact ⟨b :: r, by simp [mapO, hb, hr], by simp [hlen]⟩

/-- `mkCenters` succeeds on center text whose lines all carry five
tokens, producing `len / 2` centers. -/
theorem mkCenters_some (cen : List (List Char))
    (h : ∀ l ∈ cen, ∃ a b c d e, pySplit l = [a, b, c, d, e]) :
    ∃ centers, mkCenters cen = some centers ∧ centers.length = cen.length / 2 := by
  have h5 : ∀ i ∈ List.range (cen.length / 2),
      (((cen[i]?).bind fun l1 =>
        (cen[i + 1]?).bind fun l2 =>
        match pySplit l1, pySplit l2 with
        | [_, x0, _, _, xerr], [_, y0, _, _, yerr] => some (x0, y0, xerr, yerr)
        | _, _ => Option.none) : Option _).isSome = true := by
    intro i hi
    rw [List.mem_range] at hi
    have hi1 : i < cen.length := by omega
    have hi2 : i + 1 < cen.length := by omega
    obtain ⟨a1, b1, c1, d1, e1, h1⟩ := h cen[i] (List.getElem_mem _)
    obtain ⟨a2, b2, c2, d2, e2, h2⟩ := h cen[i + 1] (List.getElem_mem _)
    rw [List.getElem?_eq_getElem hi1, List.getElem?_eq_getElem hi2]
    simp [h1, h2]
  obtain ⟨r, hr, hlen⟩ := mapO_some_of_forall _ (List.range (cen.length / 2)) h5
  exact ⟨r, hr, by rw [hlen, List.length_range]⟩

/-- A list is a Boolean prefix of itself followed by anything. -/
theorem isPrefixOf_self_append : ∀ a b : List Char, a.isPrefixOf (a ++ b) = true := by
  intro a b
  rw [List.isPrefixOf_iff_prefix]
  exact List.prefix_append a b

/-- A list is a Boolean suffix of anything followed by itself. -/
theorem isSuffixOf_append_self (a b : List Char) : b.isSuffixOf (a ++ b) = true := by
  rw [List.isSuffixOf_iff_suffix]
  exact List.suffix_append a b

/-- Error keys really end in `_err`. -/
theorem err_key_suffix (p : String) :
    "_err".toList.isSuffixOf (p ++ "_err").toList = true := by
  have h : (p ++ "_err").toList = p.toList ++ "_err".toList := String.data_append ..
  rw [h]
  exact isSuffixOf_append_self _ _

/-- Removing the `_err` keys from the recorded entries recovers the
parameter-name list. -/
theorem keysNoErr_entriesOf :
    ∀ (ps : List String) (pvs : List (List Char × List Char)),
      (∀ p ∈ ps, goodPName p = true) → ps.length = pvs.length →
      keysNoErr (entriesOf ps pvs) = ps := by
  intro ps
  induction ps with
  | nil =>
    intro pvs _ hlen
    cases pvs with
    | nil => rfl
    | cons pv pvt => simp at hlen
  | cons p pt ih =>
    intro pvs hg hlen
    cases pvs with
    | nil => simp at hlen
    | cons pv pvt =>
      obtain ⟨-, -, -, -, -, herr, -⟩ := goodPName_facts p (hg p (by simp))
      have ihx := ih pvt (fun q hq => hg q (by simp [hq])) (by simpa using hlen)
      have h1 : (!"_err".toList.isSuffixOf p.toList) = true := by
        rw [herr]; exact rfl
      have h2 : (!"_err".toList.isSuffixOf (p ++ "_err").toList) = false := by
        rw [err_key_suffix]; exact rfl
      simp only [keysNoErr] at ihx ⊢
      simp only [entriesOf, List.map_cons, List.filter_cons, h1, h2, if_true,
        Bool.false_eq_true, if_false, ihx]

/-- `readCompParams` consumes exactly the generated parameter block and
records the expected entries. -/
theorem readCompParams_block :
    ∀ (ps : List String) (pvs : List (List Char × List Char)) (tail : List (List Char)),
      ps.length = pvs.length → (∀ p ∈ ps, goodPName p = true) →
      (∀ pv ∈ pvs, isDigitTok pv.1 = true ∧ isDigitTok pv.2 = true) →
      readCompParams (List.zipWith paramLineOf ps pvs ++ tail) ps =
        some (entriesOf ps pvs, tail) := by
  intro ps
  induction ps with
  | nil =>
    intro pvs tail hlen _ _
    cases pvs with
    | nil => simp [readCompParams, entriesOf]
    | cons pv pvt => simp at hlen
  | cons p pt ih =>
    intro pvs tail hlen hg hd
    cases pvs with
    | nil => simp at hlen
    | cons pv pvt =>
      have hp := hg p (by simp)
      have hdv := hd pv (by simp)
      rw [List.zipWith_cons_cons, List.cons_append]
      simp only [readCompParams, pySplit_paramLineOf p hp pv hdv.1 hdv.2]
      simp only [List.getLast?]
      rw [ih pvt tail (by simpa using hlen) (fun q hq => hg q (by simp [hq]))
        (fun q hq => hd q (by simp [hq]))]
      simp only [if_true, Option.map_some']
      exact rfl

/-- `mapO` distributes over append. -/
theorem mapO_append {α β : Type} (f : α → Option β) :
    ∀ a b : List α,
      mapO f (a ++ b) = (mapO f a).bind fun ra => (mapO f b).map (fun rb => ra ++ rb) := by
  intro a
  induction a with
  | nil =>
    intro b
    simp only [List.nil_append, mapO, Option.some_bind]
    cases mapO f b with
    | none => exact rfl
    | some rb => exact rfl
  | cons x xs ih =>
    intro b
    cases hf : f x with
    | none => simp [mapO, hf]
    | some y =>
      cases hxs : mapO f xs with
      | none => simp [mapO, hf, hxs, ih]
      | some ys =>
        cases hb : mapO f b with
        | none => simp [mapO, hf, hxs, hb, ih]
        | some rb => simp [mapO, hf, hxs, hb, ih]

/-- Reading `l[0..m)` by index succeeds and returns the prefix. -/
theorem mapO_range_take {α : Type} (l : List α) :
    ∀ m : ℕ, m ≤ l.length →
      mapO (fun i => l[i]?) (List.range m) = some (l.take m) := by
  intro m
  induction m with
  | zero => intro _; simp [mapO]
  | succ m ih =>
    intro hm
    have hm2 : m < l.length := by omega
    rw [List.range_succ, mapO_append, ih (by omega)]
    simp only [mapO, List.getElem?_eq_getElem hm2, Option.some_bind, Option.map_some',
      Option.some.injEq]
    rw [List.take_succ, List.getElem?_eq_getElem hm2]
    rfl

/-- Natural indexing through `pyIdx`. -/
theorem pyIdx_natCast {α : Type} (l : List α) (k : ℕ) (h : k < l.length) :
    pyIdx l (k : ℤ) = some l[k] := by
  simp [pyIdx, Int.toNat_natCast, List.getElem?_eq_getElem h]

/-- The component walk of `read_results` on generated text: all
components succeed, one entry per component, each seeded with
`function` and the center keys and carrying exactly the `param_names`
keys besides. -/
theorem readComps_spec :
    ∀ (gs : List GComp) (centers : List (List Char × List Char × List Char × List Char))
      (k : ℕ),
      (∀ g ∈ gs, GComp.wf g) → (∀ g ∈ gs, g.center.isSome = true) →
      k + gs.length ≤ centers.length →
      ∃ res, readComps (gs.map (fun g => g.comp)) ((gs.map genParamLines).flatten)
          centers ((k : ℤ) - 1) = some res ∧
        res.length = gs.length ∧
        ∀ (i : ℕ) (g : GComp) (r : List (String × List Char)),
          gs[i]? = some g → res[i]? = some r →
          r.head? = some ("function", g.comp.name.toList) ∧
          keysNoErr r = "function" :: "X0" :: "Y0" :: g.comp.param_names := by
  intro gs
  induction gs with
  | nil =>
    intro centers k _ _ _
    exact ⟨[], rfl, rfl, fun i g r hg _ => by simp at hg⟩
  | cons g gt ih =>
    intro centers k hwf hcen hlen
    obtain ⟨hc1, hc2, hc3, hc4, hc5, hc6⟩ := hwf g (by simp)
    have hX0 : g.comp.X0.isSome = true := hc1 ▸ hcen g (by simp)
    simp only [List.map_cons, List.flatten_cons, readComps, hX0, if_true]
    have hk1 : ((k : ℤ) - 1) + 1 = (k : ℤ) := by ring
    rw [hk1]
    have hklt : k < centers.length := by
      simp only [List.length_cons] at hlen
      omega
    rw [pyIdx_natCast centers k hklt]
    simp only [Option.some_bind, genParamLines]
    rw [readCompParams_block g.comp.param_names g.pvals _ hc2.symm hc4 hc5]
    simp only [Option.some_bind]
    obtain ⟨res, hres, hreslen, hspec⟩ := ih centers (k + 1)
      (fun g2 hg2 => hwf g2 (by simp [hg2])) (fun g2 hg2 => hcen g2 (by simp [hg2]))
      (by simp only [List.length_cons] at hlen; omega)
    have hk2 : (k : ℤ) = ((k + 1 : ℕ) : ℤ) - 1 := by push_cast; ring
    rw [hk2, hres]
    simp only [Option.map_some']
    refine ⟨_, rfl, by simp [hreslen], ?_⟩
    intro i g2 r hg2 hr
    cases i with
    | zero =>
      simp only [List.getElem?_cons_zero, Option.some.injEq] at hg2 hr
      subst hg2
      subst hr
      refine ⟨rfl, ?_⟩
      have hkeys := keysNoErr_entriesOf g.comp.param_names g.pvals hc4 hc2.symm
      simp only [keysNoErr] at hkeys ⊢
      simp only [List.map_cons, List.filter_cons]
      rw [hkeys]
      rfl
    | succ n =>
      simp only [List.getElem?_cons_succ] at hg2 hr
      exact hspec n g2 r hg2 hr

/-- Claim C1 counterexample: for the one-component Sersic model and its
congruent hand-constructed result text, reading succeeds, but the
result entry's key set with the `_err`-suffixed keys removed is
`function, X0, Y0, PA, ell, n, I_e, r_e` — the code stores the
`function` tag and the center values in the same mapping as the
parameters, so it is not equal to the component's `param_names`
(`PA, ell, n, I_e, r_e`) as the claim asserts. -/
theorem c1_counterexample :
    (pymReadResults (gModel [c1g]) (genResultLines [c1g])).map
        (fun res => res.map keysNoErr) =
      some [["function", "X0", "Y0", "PA", "ell", "n", "I_e", "r_e"]] ∧
    ["function", "X0", "Y0", "PA", "ell", "n", "I_e", "r_e"] ≠ c1g.comp.param_names := by
  decide

/-- Claim C1 (amended): for every model whose components all carry a
center, reading a hand-constructed result text of the same structural
shape succeeds and yields one result entry per component, 1:1 in
order (the i-th entry's `function` value is the i-th component's form
name), and each entry's key set with the `_err`-suffixed keys removed
is exactly `function`, `X0`, `Y0` followed by that component's
`param_names` (the code also stores the `function` tag and the center
values in the same mapping; the parameter keys proper are exactly
`param_names`). -/
theorem c1_read_results_roundtrip :
    ∀ gs : List GComp, (∀ g ∈ gs, GComp.wf g) → (∀ g ∈ gs, g.center.isSome = true) →
      ∃ res, pymReadResults (gModel gs) (genResultLines gs) = some res ∧
        res.length = gs.length ∧
        ∀ (i : ℕ) (g : GComp) (r : List (String × List Char)),
          gs[i]? = some g → res[i]? = some r →
          r.head? = some ("function", g.comp.name.toList) ∧
          keysNoErr r = "function" :: "X0" :: "Y0" :: g.comp.param_names := by
  intro gs hwf hcen
  obtain ⟨centers, hcent, hcentlen⟩ := mkCenters_some ((gs.map genCenLines).flatten)
    (cen_text_five_tokens gs hwf hcen)
  obtain ⟨res, hread, hlen, hspec⟩ := readComps_spec gs centers 0 hwf hcen
    (by rw [hcentlen, cen_text_length gs hcen]; omega)
  refine ⟨res, ?_, hlen, hspec⟩
  simp only [pymReadResults, bind]
  rw [filter_cen_gen gs hwf, filter_prm_gen gs hwf, hcent]
  simp only [Option.some_bind]
  have hcomps : mapO (fun i => (gModel gs).comps[i]?) (List.range (gModel gs).ncomp) =
      some (gs.map fun g => g.comp) := by
    have h := mapO_range_take ((gModel gs).comps) (gModel gs).ncomp
      (by simp [gModel])
    rwa [show List.take (gModel gs).ncomp (gModel gs).comps = gs.map (fun g => g.comp) from by
      simp only [gModel]
      exact List.take_of_length_le (by simp)] at h
  rw [hcomps]
  simp only [Option.some_bind]
  rw [show (-1 : ℤ) = ((0 : ℕ) : ℤ) - 1 from by norm_num]
  exact hread

/-- Witness for `c1_read_results_roundtrip` at the concrete
one-component Sersic model. -/
theorem c1_read_results_roundtrip_witness :
    ∃ res, pymReadResults (gModel [c1g]) (genResultLines [c1g]) = some res ∧
      res.length = [c1g].length ∧
      ∀ (i : ℕ) (g : GComp) (r : List (String × List Char)),
        [c1g][i]? = some g → res[i]? = some r →
        r.head? = some ("function", g.comp.name.toList) ∧
        keysNoErr r = "function" :: "X0" :: "Y0" :: g.comp.param_names :=
  c1_read_results_roundtrip [c1g]
    (by
      intro g hg
      rw [List.mem_singleton] at hg
      subst hg
      exact ⟨by decide, by decide, by decide, by decide, by decide,
        ⟨by decide, by decide, by decide, by decide⟩⟩)
    (by decide)

end Pymfit
